import Mathlib

/-!
# Verification of the `log-checker` core (`src/parsers.ts`)

Shallow embedding of the log-line classifier (`parseLine`) and the analysis
facade (`analyzeLogs`) of `src/parsers.ts`, together with proofs settling the
frozen claims C1..C10.

Modelling conventions:
* JS strings are `List Char`; the regexes of the source are embedded as
  executable scanners whose behaviour is derived from ECMAScript backtracking
  semantics (each derivation is documented at the definition).
* JS objects used as string-keyed counter maps are association lists in
  insertion order (`bump` updates in place, appends fresh keys), and `Set` is
  an insertion-ordered duplicate-free list.  `Object.entries` enumeration of
  integer-like keys ahead of others is not modelled: no claim depends on the
  enumeration order of distinct keys within one rule's output.
* `new Date(iso).getTime()` (only reached with `iso` in the exact shape
  `YYYY-MM-DDTHH:MM:SS±HH:MM`) is modelled by the ECMAScript date-time string
  format with strict field ranges, returning `none` for out-of-range fields
  (the engine's Invalid Date / NaN).
* `new Date(ts).getHours()` is host-timezone dependent; it is modelled as an
  explicit parameter `hourOf : Int → Int` of `analyzeLogs`, so every theorem
  holds for every host timezone.
-/

set_option maxRecDepth 100000

namespace LogChecker

/-- ECMAScript `\s` (whitespace) character class: space, tab, LF, VT, FF, CR,
NBSP, Ogham space, U+2000..U+200A, LS, PS, NNBSP, MMSP, ideographic space,
BOM (U+FEFF). -/
def jsSpace (c : Char) : Bool :=
  c.toNat = 0x20 || c.toNat = 0x09 || c.toNat = 0x0A || c.toNat = 0x0B ||
  c.toNat = 0x0C || c.toNat = 0x0D ||
  c.toNat = 0x00A0 || c.toNat = 0x1680 ||
  (0x2000 ≤ c.toNat && c.toNat ≤ 0x200A) ||
  c.toNat = 0x2028 || c.toNat = 0x2029 || c.toNat = 0x202F ||
  c.toNat = 0x205F || c.toNat = 0x3000 || c.toNat = 0xFEFF

/-- ECMAScript `\d` (code points 48..57). -/
def digitB (c : Char) : Bool := 48 ≤ c.toNat && c.toNat ≤ 57

/-- ECMAScript `\w` (word character `[A-Za-z0-9_]`). -/
def wordB (c : Char) : Bool :=
  (65 ≤ c.toNat && c.toNat ≤ 90) || (97 ≤ c.toNat && c.toNat ≤ 122) ||
  digitB c || c = '_'

/-- `[A-Z]`. -/
def upperAZ (c : Char) : Bool := 65 ≤ c.toNat && c.toNat ≤ 90

/-- ASCII lower-casing of one char: the canonicalisation performed by a
non-`u` case-insensitive ECMAScript regex when both sides are ASCII (a
non-ASCII char never canonicalises onto an ASCII one in non-`u` mode). -/
def lowerC (c : Char) : Char :=
  if 65 ≤ c.toNat && c.toNat ≤ 90 then Char.ofNat (c.toNat + 32) else c

def lowerS (s : List Char) : List Char := s.map lowerC

/-- `pat` is literally at the front of `s`. -/
def startsList : List Char → List Char → Bool
  | [], _ => true
  | _ :: _, [] => false
  | p :: ps, c :: cs => p = c && startsList ps cs

/-- `pat` occurs literally somewhere in `s`. -/
def hasSub (pat : List Char) : List Char → Bool
  | [] => startsList pat []
  | c :: cs => startsList pat (c :: cs) || hasSub pat cs

/-- Case-insensitive substring test (ASCII folding, see `lowerC`). -/
def hasSubCI (s pat : List Char) : Bool := hasSub (lowerS pat) (lowerS s)

/-- `parseInt(-, 10)` on a string of decimal digits. -/
def charsToNat (s : List Char) : Nat :=
  s.foldl (fun a c => 10 * a + (c.toNat - 48)) 0

/-- The decimal digit characters. -/
def digitChar (n : Nat) : Char :=
  if n = 0 then '0' else if n = 1 then '1' else if n = 2 then '2' else
  if n = 3 then '3' else if n = 4 then '4' else if n = 5 then '5' else
  if n = 6 then '6' else if n = 7 then '7' else if n = 8 then '8' else '9'

/-- Decimal digits of `n`, fuel-based so that the kernel can evaluate it.
`natChars n` is JS number-to-string on a non-negative integer. -/
def natCharsAux : Nat → Nat → List Char
  | 0, _ => []
  | fuel + 1, n =>
    if n < 10 then [digitChar n]
    else natCharsAux fuel (n / 10) ++ [digitChar (n % 10)]

def natChars (n : Nat) : List Char := natCharsAux (n + 1) n

/-- JS number-to-string on an integer. -/
def intChars (i : Int) : List Char :=
  if i < 0 then '-' :: natChars (-i).toNat else natChars i.toNat

/-!
## Line splitting: `text.split(/\r?\n/)` and `.filter(Boolean)`

The regex splits at each `\n`, consuming a directly preceding `\r` with it;
a `\r` not followed by `\n` is ordinary line content.
-/

/-- Prepend a character to the first piece of a split. -/
def consHead (c : Char) : List (List Char) → List (List Char)
  | [] => [[c]]
  | l :: ls => (c :: l) :: ls

/-- A split ends a piece at each `\n`; a `\r` directly followed by `\n` is
consumed with it, which is the same as delegating to the split of the tail
(which starts with that `\n`); any other character, `\r` included, is piece
content. -/
def splitLines : List Char → List (List Char)
  | [] => [[]]
  | c :: rest =>
    if c = '\n' then [] :: splitLines rest
    else if c = '\r' ∧ rest.head? = some '\n' then splitLines rest
    else consHead c (splitLines rest)

/-- The non-empty lines of the input (`.filter(Boolean)` drops `""`). -/
def nonEmptyLines (text : List Char) : List (List Char) :=
  (splitLines text).filter (fun l => !l.isEmpty)

/-!
## `IP_RE = /\b\d{1,3}(?:\.\d{1,3}){3}\b/`

At a given start position the pattern is deterministic: each `\d{1,3}`
followed by `\.` must match a maximal digit run of length 1..3 (taking fewer
digits leaves a digit where `\.`/`\b` is required, so all backtracks fail),
and the final `\b` requires the character after the last run (if any) to be a
non-word character.  The scan tries positions left to right; `\b` at the
start requires the previous character (if any) to be a non-word character.
-/

def ipAt (s : List Char) : Option (List Char) :=
  let g1 := s.takeWhile digitB
  let r1 := s.dropWhile digitB
  if g1.isEmpty || 3 < g1.length then none else
  match r1 with
  | '.' :: s2 =>
    let g2 := s2.takeWhile digitB
    let r2 := s2.dropWhile digitB
    if g2.isEmpty || 3 < g2.length then none else
    match r2 with
    | '.' :: s3 =>
      let g3 := s3.takeWhile digitB
      let r3 := s3.dropWhile digitB
      if g3.isEmpty || 3 < g3.length then none else
      match r3 with
      | '.' :: s4 =>
        let g4 := s4.takeWhile digitB
        let r4 := s4.dropWhile digitB
        if g4.isEmpty || 3 < g4.length then none else
        match r4 with
        | [] => some (g1 ++ '.' :: g2 ++ '.' :: g3 ++ '.' :: g4)
        | c :: _ =>
          if wordB c then none
          else some (g1 ++ '.' :: g2 ++ '.' :: g3 ++ '.' :: g4)
      | _ => none
    | _ => none
  | _ => none

def ipScan : Option Char → List Char → Option (List Char)
  | _, [] => none
  | prev, c :: rest =>
    let boundary := match prev with
      | none => true
      | some p => !wordB p
    if boundary then
      match ipAt (c :: rest) with
      | some tok => some tok
      | none => ipScan (some c) rest
    else ipScan (some c) rest

/-- First match of `IP_RE` in the line, or `none` (`line.match(IP_RE)`). -/
def firstIPMatch (line : List Char) : Option (List Char) :=
  ipScan none line

/-- A token of the shape `\d{1,3}(\.\d{1,3}){3}` (anchored at both ends). -/
def dottedQuad (s : List Char) : Bool :=
  let g1 := s.takeWhile digitB
  let r1 := s.dropWhile digitB
  !g1.isEmpty && g1.length ≤ 3 &&
  match r1 with
  | '.' :: s2 =>
    let g2 := s2.takeWhile digitB
    let r2 := s2.dropWhile digitB
    !g2.isEmpty && g2.length ≤ 3 &&
    match r2 with
    | '.' :: s3 =>
      let g3 := s3.takeWhile digitB
      let r3 := s3.dropWhile digitB
      !g3.isEmpty && g3.length ≤ 3 &&
      match r3 with
      | '.' :: s4 =>
        let g4 := s4.takeWhile digitB
        let r4 := s4.dropWhile digitB
        !g4.isEmpty && g4.length ≤ 3 && r4.isEmpty
      | _ => false
    | _ => false
  | _ => false

/-!
## `STATUS_RE = /\s(\d{3})\s/`

Fixed-length pattern, so the match at each position is determined; the scan
returns the leftmost hit's captured three digits.
-/

def statusAt : List Char → Option Nat
  | c0 :: c1 :: c2 :: c3 :: c4 :: _ =>
    if jsSpace c0 && digitB c1 && digitB c2 && digitB c3 && jsSpace c4 then
      some (charsToNat [c1, c2, c3])
    else none
  | _ => none

def statusScan : List Char → Option Nat
  | [] => none
  | c :: rest =>
    match statusAt (c :: rest) with
    | some n => some n
    | none => statusScan rest

/-!
## `SSH_FAILED_RE = /(Failed password|authentication failure|Invalid user|Login incorrect)/i`
-/

def sshFailedTest (line : List Char) : Bool :=
  hasSubCI line "Failed password".data ||
  hasSubCI line "authentication failure".data ||
  hasSubCI line "Invalid user".data ||
  hasSubCI line "Login incorrect".data

/-!
## `CLF_RE`

`/^(\S+) \S+ \S+ \[([^\]]+)\] "([A-Z]+) ([^"]*?) [^"]*" (\d{3}) (?:\d+|-) "(?:[^"]*)" "([^"]*)"/`

applied with `line.match`, i.e. anchored at the start, trailing text allowed.
Backtracking analysis (documented here once, used throughout):
* a greedy run (`\S+`, `[^\]]+`, `[A-Z]+`, `[^"]*`, `\d+`) followed by a
  fixed character outside its class must match the maximal run and the fixed
  character must follow, since any shorter run leaves a class character where
  the fixed one is required;
* `(\d{3})` followed by a space requires the maximal digit run to have length
  exactly 3 (a longer run makes the following character a digit for every
  allowed backtrack);
* the lazy `([^"]*?) ` takes the shortest quote-free prefix ending before a
  space.  Every longer candidate lies before the same first `"` that the
  following greedy `[^"]*"` stops at, so all candidates share one identical
  continuation; if it fails for the shortest it fails for all, and the whole
  match fails.  Hence: group 4 is the quote-free text up to the first space
  (failing if a `"` appears first).
-/

structure CLFData where
  addr : List Char
  date : List Char
  method : List Char
  path : List Char
  status : Nat
  ua : List Char
deriving DecidableEq, Repr

def expectChar (c : Char) : List Char → Option (List Char)
  | x :: r => if x = c then some r else none
  | [] => none

/-- `\S+` followed by a literal space: the maximal non-whitespace run. -/
def tokenSpace (s : List Char) : Option (List Char × List Char) :=
  let t := s.takeWhile (fun c => !jsSpace c)
  let r := s.dropWhile (fun c => !jsSpace c)
  if t.isEmpty then none else
  match expectChar ' ' r with
  | some r2 => some (t, r2)
  | none => none

def clfMatch (line : List Char) : Option CLFData :=
  match tokenSpace line with
  | none => none
  | some (g1, s) =>
  match tokenSpace s with
  | none => none
  | some (_, s) =>
  match tokenSpace s with
  | none => none
  | some (_, s) =>
  match expectChar '[' s with
  | none => none
  | some s =>
  let g2 := s.takeWhile (fun c => c ≠ ']')
  let s := s.dropWhile (fun c => c ≠ ']')
  if g2.isEmpty then none else
  match expectChar ']' s with
  | none => none
  | some s =>
  match expectChar ' ' s with
  | none => none
  | some s =>
  match expectChar '"' s with
  | none => none
  | some s =>
  let g3 := s.takeWhile upperAZ
  let s := s.dropWhile upperAZ
  if g3.isEmpty then none else
  match expectChar ' ' s with
  | none => none
  | some s =>
  -- lazy group 4: quote-free text up to the first space
  let g4 := s.takeWhile (fun c => c ≠ ' ' && c ≠ '"')
  let s := s.dropWhile (fun c => c ≠ ' ' && c ≠ '"')
  match expectChar ' ' s with
  | none => none
  | some s =>
  -- [^"]*" : skip to the first quote
  let s := s.dropWhile (fun c => c ≠ '"')
  match expectChar '"' s with
  | none => none
  | some s =>
  match expectChar ' ' s with
  | none => none
  | some s =>
  let g5 := s.takeWhile digitB
  let s := s.dropWhile digitB
  if g5.length ≠ 3 then none else
  match expectChar ' ' s with
  | none => none
  | some s =>
  -- (?:\d+|-)
  let d := s.takeWhile digitB
  match (if d.isEmpty then expectChar '-' s else some (s.dropWhile digitB)) with
  | none => none
  | some s =>
  match expectChar ' ' s with
  | none => none
  | some s =>
  match expectChar '"' s with
  | none => none
  | some s =>
  let s := s.dropWhile (fun c => c ≠ '"')
  match expectChar '"' s with
  | none => none
  | some s =>
  match expectChar ' ' s with
  | none => none
  | some s =>
  match expectChar '"' s with
  | none => none
  | some s =>
  let g6 := s.takeWhile (fun c => c ≠ '"')
  let s := s.dropWhile (fun c => c ≠ '"')
  match expectChar '"' s with
  | none => none
  | some _ => some ⟨g1, g2, g3, g4, charsToNat g5, g6⟩

/-!
## `parseApacheDate`

Source regex (unanchored, leftmost match; fixed-length, so deterministic at
each position): `(\d{2})\/(\w{3})\/(\d{4}):(\d{2}):(\d{2}):(\d{2}) ([+-]\d{4})`.
The match is then turned into `YYYY-MM-DDTHH:MM:SS±hh:mm` via the
case-sensitive month table and handed to `new Date(iso).getTime()`; an
unknown month key yields the substring `undefined` in `iso`, hence an Invalid
Date (NaN), which — like a NaN from out-of-range fields — the caller's
`if (ts)` guard discards exactly as it discards `undefined`.  We therefore
fold NaN into `none` here, and `parseLine` additionally discards a zero
instant (`0` is falsy in JS).
-/

structure DateFields where
  dd : List Char
  mon : List Char
  yyyy : List Char
  hh : List Char
  mi : List Char
  ss : List Char
  sign : Char
  tzh : List Char
  tzm : List Char
deriving DecidableEq, Repr

def isWordN (l : List Char) (n : Nat) : Bool := l.length = n && l.all wordB
def isDigitN (l : List Char) (n : Nat) : Bool := l.length = n && l.all digitB

def dateAt (s : List Char) : Option DateFields :=
  match s with
  | d1 :: d2 :: '/' :: w1 :: w2 :: w3 :: '/' :: y1 :: y2 :: y3 :: y4 :: ':' ::
    h1 :: h2 :: ':' :: m1 :: m2 :: ':' :: s1 :: s2 :: ' ' :: sg :: t1 :: t2 :: t3 :: t4 :: _ =>
    if digitB d1 && digitB d2 && wordB w1 && wordB w2 && wordB w3 &&
       digitB y1 && digitB y2 && digitB y3 && digitB y4 &&
       digitB h1 && digitB h2 && digitB m1 && digitB m2 && digitB s1 && digitB s2 &&
       (sg = '+' || sg = '-') && digitB t1 && digitB t2 && digitB t3 && digitB t4 then
      some ⟨[d1, d2], [w1, w2, w3], [y1, y2, y3, y4], [h1, h2], [m1, m2], [s1, s2],
            sg, [t1, t2], [t3, t4]⟩
    else none
  | _ => none

def dateScan : List Char → Option DateFields
  | [] => none
  | c :: rest =>
    match dateAt (c :: rest) with
    | some f => some f
    | none => dateScan rest

/-- The source's case-sensitive month table. -/
def monthNum (m : List Char) : Option Nat :=
  if m = "Jan".data then some 1 else if m = "Feb".data then some 2 else
  if m = "Mar".data then some 3 else if m = "Apr".data then some 4 else
  if m = "May".data then some 5 else if m = "Jun".data then some 6 else
  if m = "Jul".data then some 7 else if m = "Aug".data then some 8 else
  if m = "Sep".data then some 9 else if m = "Oct".data then some 10 else
  if m = "Nov".data then some 11 else if m = "Dec".data then some 12 else none

def isLeap (y : Nat) : Bool := (y % 4 = 0 && y % 100 ≠ 0) || y % 400 = 0

def daysInMonth (y m : Nat) : Nat :=
  if m = 1 then 31 else if m = 2 then (if isLeap y then 29 else 28) else
  if m = 3 then 31 else if m = 4 then 30 else if m = 5 then 31 else
  if m = 6 then 30 else if m = 7 then 31 else if m = 8 then 31 else
  if m = 9 then 30 else if m = 10 then 31 else if m = 11 then 30 else 31

/-- Days from 1970-01-01 to year `y`, month `m` (1..12), day `d` (proleptic
Gregorian; the standard civil-calendar formula with floored division). -/
def daysFromEpoch (y m d : Nat) : Int :=
  let ym : Int := if m ≤ 2 then (y : Int) - 1 else (y : Int)
  let mm : Int := if m ≤ 2 then (m : Int) + 12 else (m : Int)
  365 * ym + Int.fdiv ym 4 - Int.fdiv ym 100 + Int.fdiv ym 400 +
    Int.fdiv (153 * (mm - 3) + 2) 5 + (d : Int) - 1 - 719468

/-- `new Date(iso).getTime()` for `iso = YYYY-MM-DDTHH:MM:SS±hh:mm`:
the ECMAScript date-time string format, strict field ranges (out-of-range
fields give Invalid Date / NaN, modelled as `none`).  Hour 24 is accepted
with 00:00 seconds/minutes per the format; offset hours are 00..23 and
offset minutes 00..59. -/
def isoMs (f : DateFields) (mon : Nat) : Option Int :=
  let y := charsToNat f.yyyy
  let d := charsToNat f.dd
  let hh := charsToNat f.hh
  let mi := charsToNat f.mi
  let ss := charsToNat f.ss
  let th := charsToNat f.tzh
  let tm := charsToNat f.tzm
  if 1 ≤ d && d ≤ daysInMonth y mon &&
     (hh ≤ 23 || (hh = 24 && mi = 0 && ss = 0)) && mi ≤ 59 && ss ≤ 59 &&
     th ≤ 23 && tm ≤ 59 then
    let utc : Int := (daysFromEpoch y mon d) * 86400000 +
      (hh : Int) * 3600000 + (mi : Int) * 60000 + (ss : Int) * 1000
    let off : Int := ((th : Int) * 60 + (tm : Int)) * 60000
    some (if f.sign = '-' then utc + off else utc - off)
  else none

/-- `parseApacheDate`, with NaN results folded into `none` (see above). -/
def parseApacheDate (d : List Char) : Option Int :=
  match dateScan d with
  | none => none
  | some f =>
    match monthNum f.mon with
    | none => none
    | some mon => isoMs f mon

/-!
## The user-agent fallback regex

`/"(Mozilla|curl|Wget|Postman|python-requests|Go-http-client|sqlmap).*?"/i`,
`entry.ua = m[0]` (the whole match, quotes included).  At a `"` the
alternation tries the tokens in order (no token is a case-insensitive prefix
of another), then the lazy `.*?` runs to the first following `"`; `.` matches
anything except `\n`, `\r`, U+2028, U+2029.  If no closing quote is
reachable the start position fails and the scan moves one character right.
-/

def dotOK (c : Char) : Bool :=
  c ≠ '\n' && c ≠ '\r' && c.toNat ≠ 0x2028 && c.toNat ≠ 0x2029

def uaTokens : List (List Char) :=
  ["Mozilla".data, "curl".data, "Wget".data, "Postman".data,
   "python-requests".data, "Go-http-client".data, "sqlmap".data]

def startsCI (pat s : List Char) : Bool := startsList (lowerS pat) (lowerS s)

def uaAt : List Char → Option (List Char)
  | '"' :: rest =>
    match uaTokens.find? (fun t => startsCI t rest) with
    | some t =>
      let afterTok := rest.drop t.length
      let mid := afterTok.takeWhile (fun c => c ≠ '"' && dotOK c)
      let rem := afterTok.dropWhile (fun c => c ≠ '"' && dotOK c)
      match rem with
      | '"' :: _ => some ('"' :: rest.take t.length ++ mid ++ ['"'])
      | _ => none
    | none => none
  | _ => none

def uaScan : List Char → Option (List Char)
  | [] => none
  | c :: rest =>
    match uaAt (c :: rest) with
    | some u => some u
    | none => uaScan rest

/-!
## `parseLine`
-/

structure LogEntry where
  raw : List Char
  ip : Option (List Char)
  status : Option Nat
  ts : Option Int
  method : Option (List Char)
  path : Option (List Char)
  ua : Option (List Char)
  tags : List (List Char)
deriving DecidableEq, Repr

def failedLoginTag : List Char := "failed_login".data

def parseLine (line : List Char) : LogEntry :=
  match clfMatch line with
  | some f =>
    { raw := line, ip := some f.addr,
      status := some f.status,
      ts := match parseApacheDate f.date with
            | some t => if t = 0 then none else some t   -- `if (ts)`: 0 is falsy
            | none => none,
      method := some f.method, path := some f.path,
      ua := some f.ua, tags := [] }
  | none =>
    if sshFailedTest line then
      { raw := line, ip := firstIPMatch line, status := none, ts := none,
        method := none, path := none, ua := none, tags := [failedLoginTag] }
    else
      { raw := line, ip := firstIPMatch line, status := statusScan line,
        ts := none, method := none, path := none, ua := uaScan line,
        tags := [] }

/-!
## `analyzeLogs`
-/

structure Anomaly where
  type : List Char
  message : List Char
  line : Option (List Char)
deriving DecidableEq, Repr

/-- Aggregation state of the per-entry loop: the anomaly list built so far
(only "HTTP Error" anomalies are pushed inside the loop) and the five
counter maps. -/
structure AggState where
  anomalies : List Anomaly
  failedByIP : List (List Char × Nat)
  errorsByIP : List (List Char × Nat)
  uaSet : List (List Char)
  perMinute : List (List Char × Nat)
  nightByIP : List (List Char × Nat)
deriving DecidableEq, Repr

def initState : AggState := ⟨[], [], [], [], [], []⟩

/-- `m[k] = (m[k] || 0) + 1` on a JS object: update in place, append a fresh
key at the end (`Object.entries` preserves this order for such keys). -/
def bump : List (List Char × Nat) → List Char → List (List Char × Nat)
  | [], k => [(k, 1)]
  | (k', v) :: rest, k =>
    if k' = k then (k', v + 1) :: rest else (k', v) :: bump rest k

/-- Association-list lookup. -/
def alook : List (List Char × Nat) → List Char → Option Nat
  | [], _ => none
  | (k', v) :: rest, k => if k' = k then some v else alook rest k

/-- `e.ip || "unknown"` (the parsed `ip` is never the empty string, so
truthiness coincides with presence). -/
def ipKey (e : LogEntry) : List Char :=
  match e.ip with
  | some s => s
  | none => "unknown".data

/-- `[403,404,500,502,503].includes(status)` guarded by the number check. -/
def errStatusB : Option Nat → Bool
  | some n => n = 403 || n = 404 || n = 500 || n = 502 || n = 503
  | none => false

/-- The failed-login test of the loop:
`e.tags?.includes("failed_login") || /failed login/i.test(e.raw)`. -/
def failedB (e : LogEntry) : Bool :=
  e.tags.contains failedLoginTag || hasSubCI e.raw "failed login".data

def mkHttp (e : LogEntry) : Anomaly :=
  ⟨"HTTP Error".data,
   "HTTP ".data ++ natChars (e.status.getD 0) ++ " from ".data ++ ipKey e,
   some e.raw⟩

/-- `Set.add`: insert at the end if not present. -/
def addUA (s : List (List Char)) (u : List Char) : List (List Char) :=
  if s.contains u then s else s ++ [u]

/-- The per-minute composite key `${e.ip}:${minuteBucket}` with
`minuteBucket = Math.floor(e.ts / 60000)`. -/
def rateKeyOf (e : LogEntry) : Option (List Char) :=
  match e.ts, e.ip with
  | some t, some a => some (a ++ ':' :: intChars (Int.fdiv t 60000))
  | _, _ => none

/-- Loop paragraph 1: the failed-login counter. -/
def updFailed (st : AggState) (e : LogEntry) : AggState :=
  if failedB e then { st with failedByIP := bump st.failedByIP (ipKey e) } else st

/-- Loop paragraph 2: the HTTP-error counter plus the immediate anomaly. -/
def updErr (st : AggState) (e : LogEntry) : AggState :=
  if errStatusB e.status then
    { st with errorsByIP := bump st.errorsByIP (ipKey e),
              anomalies := st.anomalies ++ [mkHttp e] }
  else st

/-- Loop paragraph 3: the user-agent set. -/
def updUA (st : AggState) (e : LogEntry) : AggState :=
  match e.ua with
  | some u => { st with uaSet := addUA st.uaSet u }
  | none => st

/-- Loop paragraph 4: the per-minute counter and (inside the same guard) the
night-time counter; the loop's `ip` equals `e.ip` here since `e.ip` is
present, so `ipKey e` is the key used for `nightByIP` as well. -/
def updRate (hourOf : Int → Int) (st : AggState) (e : LogEntry) : AggState :=
  match e.ts, e.ip with
  | some t, some a =>
    let key := a ++ ':' :: intChars (Int.fdiv t 60000)
    let st4 := { st with perMinute := bump st.perMinute key }
    if 0 ≤ hourOf t ∧ hourOf t < 5 then
      { st4 with nightByIP := bump st4.nightByIP (ipKey e) }
    else st4
  | _, _ => st

/-- One iteration of the `for (const e of entries)` loop. -/
def stepEntry (hourOf : Int → Int) (st : AggState) (e : LogEntry) : AggState :=
  updRate hourOf (updUA (updErr (updFailed st e) e) e) e

def mkBrute (ip : List Char) (cnt : Nat) : Anomaly :=
  ⟨"Brute Force".data, natChars cnt ++ " failed logins from ".data ++ ip, none⟩

def mkErrSpike (ip : List Char) (cnt : Nat) : Anomaly :=
  ⟨"Error Spike".data, natChars cnt ++ " HTTP errors from ".data ++ ip, none⟩

def mkSuspUA : Anomaly :=
  ⟨"Suspicious UA".data,
   "Automation/tool user-agents detected (curl/wget/Postman/etc.)".data, none⟩

def mkRate (ip : List Char) (mx : Nat) : Anomaly :=
  ⟨"Rate Spike".data, ip ++ " peaked at ".data ++ natChars mx ++ " req/min".data, none⟩

def mkNight (ip : List Char) (cnt : Nat) : Anomaly :=
  ⟨"Off-hours Activity".data,
   natChars cnt ++ " requests between 00:00–05:00 from ".data ++ ip, none⟩

/-- `/curl|wget|postman|python-requests|go-http-client|sqlmap/i.test(ua)`. -/
def suspB (ua : List Char) : Bool :=
  hasSubCI ua "curl".data || hasSubCI ua "wget".data ||
  hasSubCI ua "postman".data || hasSubCI ua "python-requests".data ||
  hasSubCI ua "go-http-client".data || hasSubCI ua "sqlmap".data

/-- `key.split(":")[0]`: the segment before the first `:` (the whole key if
there is none). -/
def colonHead (k : List Char) : List Char := k.takeWhile (fun c => c ≠ ':')

/-- `if (!maxPerIP[ip] || count > maxPerIP[ip]) maxPerIP[ip] = count`. -/
def bumpMax : List (List Char × Nat) → List Char → Nat → List (List Char × Nat)
  | [], k, c => [(k, c)]
  | (k', v) :: rest, k, c =>
    if k' = k then (if v = 0 ∨ v < c then (k', c) else (k', v)) :: rest
    else (k', v) :: bumpMax rest k c

/-- The `maxPerIP` map built from `perMinute`. -/
def mkMaxPerIP (pm : List (List Char × Nat)) : List (List Char × Nat) :=
  pm.foldl (fun acc kc => bumpMax acc (colonHead kc.1) kc.2) []

def entriesOf (text : List Char) : List LogEntry :=
  (nonEmptyLines text).map parseLine

def aggOf (hourOf : Int → Int) (text : List Char) : AggState :=
  (entriesOf text).foldl (stepEntry hourOf) initState

/-- The post-rule anomaly blocks, in the source's emission order. -/
def bruteBlock (st : AggState) : List Anomaly :=
  st.failedByIP.filterMap (fun kc => if 6 ≤ kc.2 then some (mkBrute kc.1 kc.2) else none)

def errSpikeBlock (st : AggState) : List Anomaly :=
  st.errorsByIP.filterMap (fun kc => if 12 ≤ kc.2 then some (mkErrSpike kc.1 kc.2) else none)

def uaBlock (st : AggState) : List Anomaly :=
  if st.uaSet.any suspB then [mkSuspUA] else []

def rateBlock (st : AggState) : List Anomaly :=
  (mkMaxPerIP st.perMinute).filterMap
    (fun kc => if 120 < kc.2 then some (mkRate kc.1 kc.2) else none)

def nightBlock (st : AggState) : List Anomaly :=
  st.nightByIP.filterMap (fun kc => if 100 ≤ kc.2 then some (mkNight kc.1 kc.2) else none)

structure AnalyzeResult where
  entries : List LogEntry
  anomalies : List Anomaly
deriving DecidableEq, Repr

/-- `analyzeLogs(text)`, with the host-dependent `getHours` as a parameter. -/
def analyzeLogs (hourOf : Int → Int) (text : List Char) : AnalyzeResult :=
  let entries := entriesOf text
  let st := entries.foldl (stepEntry hourOf) initState
  ⟨entries,
   st.anomalies ++ bruteBlock st ++ errSpikeBlock st ++ uaBlock st ++
     rateBlock st ++ nightBlock st⟩

/-- A fixed stand-in host clock for concrete runs: every instant renders as
local hour 12 (no entry is night-time). -/
def hourNoon : Int → Int := fun _ => 12

/-!
## Specification-side counting functions used by the claims
-/

/-- Entry `e` hits the failed-login rule under key `ip`. -/
def failedHit (ip : List Char) (e : LogEntry) : Bool :=
  failedB e && ipKey e = ip

/-- Number of entries of `text` that hit the failed-login rule with key `ip`. -/
def failedCount (text : List Char) (ip : List Char) : Nat :=
  (entriesOf text).countP (failedHit ip)

/-- Entry `e` contributes to the per-minute counter of key `k`. -/
def rateHit (k : List Char) (e : LogEntry) : Bool :=
  rateKeyOf e = some k

/-- Entry `e` is a request from address `ip` in minute bucket `b`. -/
def minuteHit (ip : List Char) (b : Int) (e : LogEntry) : Bool :=
  match e.ts, e.ip with
  | some t, some a => a = ip && Int.fdiv t 60000 = b
  | _, _ => false

/-- Number of entries of `text` from address `ip` in minute bucket `b`. -/
def minuteCount (text : List Char) (ip : List Char) (b : Int) : Nat :=
  (entriesOf text).countP (minuteHit ip b)

/-- The distinct minute buckets address `ip` appears in. -/
def bucketsOf (text : List Char) (ip : List Char) : List Int :=
  ((entriesOf text).filterMap
    (fun e => match e.ts, e.ip with
      | some t, some a => if a = ip then some (Int.fdiv t 60000) else none
      | _, _ => none)).dedup

/-- Maximum of a list of counts (0 if empty). -/
def lmax (l : List Nat) : Nat := l.foldl max 0

/-- The maximum single-minute bucket count of address `ip`: a maximum over
buckets, not a sum. -/
def maxRate (text : List Char) (ip : List Char) : Nat :=
  lmax ((bucketsOf text ip).map (minuteCount text ip))

/-!
## Association-list lemmas
-/

theorem alook_bump (m : List (List Char × Nat)) (k k' : List Char) :
    alook (bump m k) k' =
      if k' = k then some ((alook m k).getD 0 + 1) else alook m k' := by
  induction m with
  | nil =>
    by_cases h : k' = k
    · subst h; simp [bump, alook]
    · simp [bump, alook, h, Ne.symm h]
  | cons p rest ih =>
    obtain ⟨k0, v0⟩ := p
    by_cases h0 : k0 = k
    · subst h0
      by_cases h1 : k' = k0
      · subst h1; simp [bump, alook]
      · simp [bump, alook, h1, Ne.symm h1]
    · by_cases h1 : k' = k0
      · subst h1; simp [bump, alook, h0, Ne.symm h0, Ne.symm h0]
      · simp [bump, alook, h0, h1, Ne.symm h1, ih]

theorem alook_mem {m : List (List Char × Nat)} {k : List Char} {v : Nat}
    (h : alook m k = some v) : (k, v) ∈ m := by
  induction m with
  | nil => simp [alook] at h
  | cons p rest ih =>
    obtain ⟨k0, v0⟩ := p
    by_cases h0 : k0 = k
    · subst h0
      simp [alook] at h
      simp [h]
    · simp [alook, h0] at h
      exact List.mem_cons_of_mem _ (ih h)

theorem mem_alook {m : List (List Char × Nat)} {k : List Char} {v : Nat}
    (hnd : (m.map Prod.fst).Nodup) (h : (k, v) ∈ m) : alook m k = some v := by
  induction m with
  | nil => simp at h
  | cons p rest ih =>
    obtain ⟨k0, v0⟩ := p
    rw [List.map_cons, List.nodup_cons] at hnd
    rcases List.mem_cons.mp h with h | h
    · injection h with h1 h2
      subst h1; subst h2
      simp [alook]
    · have hk : ¬ k0 = k := by
        rintro rfl
        exact hnd.1 (List.mem_map.mpr ⟨(k0, v), h, rfl⟩)
      simp [alook, hk, ih hnd.2 h]

theorem alook_eq_none (m : List (List Char × Nat)) (k : List Char) :
    alook m k = none ↔ k ∉ m.map Prod.fst := by
  induction m with
  | nil => simp [alook]
  | cons p rest ih =>
    obtain ⟨k0, v0⟩ := p
    by_cases h0 : k0 = k
    · subst h0; simp [alook]
    · rw [List.map_cons,
        show alook ((k0, v0) :: rest) k = alook rest k from by simp [alook, h0],
        ih]
      constructor
      · intro hh hmem
        rcases List.mem_cons.mp hmem with hh2 | hh2
        · exact h0 hh2.symm
        · exact hh hh2
      · intro hh hmem
        exact hh (List.mem_cons_of_mem _ hmem)

theorem mem_bump {m : List (List Char × Nat)} {k : List Char}
    {p : List Char × Nat} (h : p ∈ bump m k) : p.1 = k ∨ p ∈ m := by
  induction m with
  | nil =>
    simp [bump] at h
    simp [h]
  | cons q rest ih =>
    obtain ⟨k0, v0⟩ := q
    by_cases h0 : k0 = k
    · subst h0
      simp [bump] at h
      rcases h with h | h
      · exact Or.inl (by simp [h])
      · exact Or.inr (List.mem_cons_of_mem _ h)
    · simp [bump, h0] at h
      rcases h with h | h
      · exact Or.inr (by simp [h])
      · rcases ih h with h | h
        · exact Or.inl h
        · exact Or.inr (List.mem_cons_of_mem _ h)

theorem bump_keys (m : List (List Char × Nat)) (k : List Char) :
    (bump m k).map Prod.fst =
      if k ∈ m.map Prod.fst then m.map Prod.fst else m.map Prod.fst ++ [k] := by
  induction m with
  | nil => simp [bump]
  | cons p rest ih =>
    obtain ⟨k0, v0⟩ := p
    by_cases h0 : k0 = k
    · subst h0
      simp [bump]
    · by_cases hk : k ∈ rest.map Prod.fst <;>
        simp [bump, h0, Ne.symm h0, ih, hk]

theorem nodup_bump {m : List (List Char × Nat)} {k : List Char}
    (h : (m.map Prod.fst).Nodup) : ((bump m k).map Prod.fst).Nodup := by
  rw [bump_keys]
  by_cases hk : k ∈ m.map Prod.fst
  · simpa [hk] using h
  · simp [hk, List.nodup_append, h]

/-- The value written by the source's max-update
`if (!maxPerIP[ip] || count > maxPerIP[ip])`. -/
def jsMax : Option Nat → Nat → Nat
  | none, c => c
  | some v, c => if v = 0 ∨ v < c then c else v

theorem jsMax_eq_max (o : Option Nat) (c : Nat) : jsMax o c = max (o.getD 0) c := by
  cases o with
  | none => simp [jsMax]
  | some v =>
    simp only [jsMax, Option.getD]
    split
    · omega
    · omega

theorem alook_bumpMax (m : List (List Char × Nat)) (k k' : List Char) (c : Nat) :
    alook (bumpMax m k c) k' =
      if k' = k then some (jsMax (alook m k) c) else alook m k' := by
  induction m with
  | nil =>
    by_cases h : k' = k
    · subst h; simp [bumpMax, alook, jsMax]
    · simp [bumpMax, alook, h, Ne.symm h]
  | cons p rest ih =>
    obtain ⟨k0, v0⟩ := p
    by_cases h0 : k0 = k
    · subst h0
      by_cases h1 : k' = k0
      · subst h1
        by_cases h2 : v0 = 0 ∨ v0 < c <;> simp [bumpMax, alook, jsMax, h2]
      · by_cases h2 : v0 = 0 ∨ v0 < c <;>
          simp [bumpMax, alook, h1, Ne.symm h1, h2]
    · by_cases h1 : k' = k0
      · subst h1; simp [bumpMax, alook, h0, Ne.symm h0]
      · simp [bumpMax, alook, h0, h1, Ne.symm h1, ih]

theorem mem_bumpMax {m : List (List Char × Nat)} {k : List Char} {c : Nat}
    {p : List Char × Nat} (h : p ∈ bumpMax m k c) : p.1 = k ∨ p ∈ m := by
  induction m with
  | nil =>
    simp [bumpMax] at h
    simp [h]
  | cons q rest ih =>
    obtain ⟨k0, v0⟩ := q
    by_cases h0 : k0 = k
    · subst h0
      by_cases h2 : v0 = 0 ∨ v0 < c <;> simp [bumpMax, h2] at h <;>
        rcases h with h | h
      · exact Or.inl (by simp [h])
      · exact Or.inr (List.mem_cons_of_mem _ h)
      · exact Or.inr (by simp [h])
      · exact Or.inr (List.mem_cons_of_mem _ h)
    · simp [bumpMax, h0] at h
      rcases h with h | h
      · exact Or.inr (by simp [h])
      · rcases ih h with h | h
        · exact Or.inl h
        · exact Or.inr (List.mem_cons_of_mem _ h)

theorem bumpMax_keys (m : List (List Char × Nat)) (k : List Char) (c : Nat) :
    (bumpMax m k c).map Prod.fst =
      if k ∈ m.map Prod.fst then m.map Prod.fst else m.map Prod.fst ++ [k] := by
  induction m with
  | nil => simp [bumpMax]
  | cons p rest ih =>
    obtain ⟨k0, v0⟩ := p
    by_cases h0 : k0 = k
    · subst h0
      by_cases h2 : v0 = 0 ∨ v0 < c <;> simp [bumpMax, h2]
    · by_cases hk : k ∈ rest.map Prod.fst <;>
        simp [bumpMax, h0, Ne.symm h0, ih, hk]

theorem nodup_bumpMax {m : List (List Char × Nat)} {k : List Char} {c : Nat}
    (h : (m.map Prod.fst).Nodup) : ((bumpMax m k c).map Prod.fst).Nodup := by
  rw [bumpMax_keys]
  by_cases hk : k ∈ m.map Prod.fst
  · simpa [hk] using h
  · simp [hk, List.nodup_append, h]

/-- Adding `n` hits to an optional counter. -/
def mergeCnt : Option Nat → Nat → Option Nat
  | some v, n => some (v + n)
  | none, n => if n = 0 then none else some n

theorem mergeCnt_zero (o : Option Nat) : mergeCnt o 0 = o := by
  cases o <;> simp [mergeCnt]

theorem mergeCnt_getD_succ (o : Option Nat) (n : Nat) :
    mergeCnt (some (o.getD 0 + 1)) n = mergeCnt o (n + 1) := by
  cases o <;> simp [mergeCnt] <;> omega

/-!
## Field projections of one loop iteration
-/

theorem stepEntry_anomalies (h : Int → Int) (st : AggState) (e : LogEntry) :
    (stepEntry h st e).anomalies =
      st.anomalies ++ (if errStatusB e.status then [mkHttp e] else []) := by
  unfold stepEntry updRate updUA updErr updFailed
  rcases e.ts with _ | t <;> rcases e.ip with _ | a <;>
    (repeat' split) <;> simp

theorem stepEntry_failedByIP (h : Int → Int) (st : AggState) (e : LogEntry) :
    (stepEntry h st e).failedByIP =
      if failedB e then bump st.failedByIP (ipKey e) else st.failedByIP := by
  unfold stepEntry updRate updUA updErr updFailed
  rcases e.ts with _ | t <;> rcases e.ip with _ | a <;>
    (repeat' split) <;> simp

theorem stepEntry_uaSet (h : Int → Int) (st : AggState) (e : LogEntry) :
    (stepEntry h st e).uaSet =
      match e.ua with
      | some u => addUA st.uaSet u
      | none => st.uaSet := by
  unfold stepEntry updRate updUA updErr updFailed
  rcases e.ts with _ | t <;> rcases e.ip with _ | a <;>
    (repeat' split) <;> simp

theorem stepEntry_perMinute (h : Int → Int) (st : AggState) (e : LogEntry) :
    (stepEntry h st e).perMinute =
      match rateKeyOf e with
      | some k => bump st.perMinute k
      | none => st.perMinute := by
  unfold stepEntry updRate updUA updErr updFailed rateKeyOf
  rcases e.ts with _ | t <;> rcases e.ip with _ | a <;>
    (repeat' split) <;> simp

/-!
## Aggregation-fold lemmas
-/

theorem foldl_anomalies (h : Int → Int) (es : List LogEntry) (st : AggState) :
    (es.foldl (stepEntry h) st).anomalies =
      st.anomalies ++ (es.filter (fun e => errStatusB e.status)).map mkHttp := by
  induction es generalizing st with
  | nil => simp
  | cons e es ih =>
    rw [List.foldl_cons, ih, stepEntry_anomalies]
    by_cases he : errStatusB e.status <;> simp [he]

theorem foldl_failedByIP (h : Int → Int) (es : List LogEntry) (st : AggState)
    (ip : List Char) :
    alook (es.foldl (stepEntry h) st).failedByIP ip =
      mergeCnt (alook st.failedByIP ip) (es.countP (failedHit ip)) := by
  induction es generalizing st with
  | nil => simp [mergeCnt_zero]
  | cons e es ih =>
    rw [List.foldl_cons, ih, stepEntry_failedByIP, List.countP_cons]
    by_cases hf : failedB e
    · rw [if_pos hf, alook_bump]
      by_cases hk : ipKey e = ip
      · rw [if_pos hk.symm, mergeCnt_getD_succ]
        simp [failedHit, hf, hk]
      · rw [if_neg (fun hh => hk hh.symm)]
        simp [failedHit, hf, hk]
    · rw [if_neg hf]
      simp [failedHit, hf]

theorem foldl_perMinute (h : Int → Int) (es : List LogEntry) (st : AggState)
    (k : List Char) :
    alook (es.foldl (stepEntry h) st).perMinute k =
      mergeCnt (alook st.perMinute k) (es.countP (rateHit k)) := by
  induction es generalizing st with
  | nil => simp [mergeCnt_zero]
  | cons e es ih =>
    rw [List.foldl_cons, ih, stepEntry_perMinute, List.countP_cons]
    rcases hr : rateKeyOf e with _ | k0
    · simp [rateHit, hr]
    · rw [alook_bump]
      by_cases hk : k0 = k
      · rw [if_pos hk.symm, mergeCnt_getD_succ]
        simp [rateHit, hr, hk]
      · rw [if_neg (fun hh => hk hh.symm)]
        simp [rateHit, hr, hk]

theorem mem_addUA (s : List (List Char)) (u v : List Char) :
    u ∈ addUA s v ↔ u ∈ s ∨ u = v := by
  unfold addUA
  split
  · rename_i hc
    constructor
    · exact Or.inl
    · rintro (hu | rfl)
      · exact hu
      · simpa using hc
  · simp

theorem foldl_uaSet (h : Int → Int) (es : List LogEntry) (st : AggState)
    (u : List Char) :
    u ∈ (es.foldl (stepEntry h) st).uaSet ↔
      u ∈ st.uaSet ∨ ∃ e ∈ es, e.ua = some u := by
  induction es generalizing st with
  | nil => simp
  | cons e es ih =>
    rw [List.foldl_cons, ih, stepEntry_uaSet]
    rcases hu : e.ua with _ | v
    · simp [hu]
    · rw [mem_addUA]
      constructor
      · rintro ((hs | rfl) | ⟨e', he', hua⟩)
        · exact Or.inl hs
        · exact Or.inr ⟨e, List.mem_cons_self .., hu⟩
        · exact Or.inr ⟨e', List.mem_cons_of_mem _ he', hua⟩
      · rintro (hs | ⟨e', he', hua⟩)
        · exact Or.inl (Or.inl hs)
        · rcases List.mem_cons.mp he' with rfl | he'
          · rw [hu] at hua
            exact Or.inl (Or.inr (Option.some.injEq .. ▸ hua :).symm)
          · exact Or.inr ⟨e', he', hua⟩

theorem foldl_failed_keys (h : Int → Int) (es : List LogEntry) (st : AggState)
    (p : List Char × Nat) (hp : p ∈ (es.foldl (stepEntry h) st).failedByIP) :
    p ∈ st.failedByIP ∨ ∃ e ∈ es, p.1 = ipKey e := by
  induction es generalizing st with
  | nil => exact Or.inl hp
  | cons e es ih =>
    rw [List.foldl_cons] at hp
    rcases ih _ hp with hmem | ⟨e', he', hk⟩
    · rw [stepEntry_failedByIP] at hmem
      by_cases hf : failedB e
      · rw [if_pos hf] at hmem
        rcases mem_bump hmem with hk | hmem
        · exact Or.inr ⟨e, List.mem_cons_self .., hk⟩
        · exact Or.inl hmem
      · rw [if_neg hf] at hmem
        exact Or.inl hmem
    · exact Or.inr ⟨e', List.mem_cons_of_mem _ he', hk⟩

theorem foldl_pm_keys (h : Int → Int) (es : List LogEntry) (st : AggState)
    (p : List Char × Nat) (hp : p ∈ (es.foldl (stepEntry h) st).perMinute) :
    p ∈ st.perMinute ∨ ∃ e ∈ es, rateKeyOf e = some p.1 := by
  induction es generalizing st with
  | nil => exact Or.inl hp
  | cons e es ih =>
    rw [List.foldl_cons] at hp
    rcases ih _ hp with hmem | ⟨e', he', hk⟩
    · rw [stepEntry_perMinute] at hmem
      rcases hr : rateKeyOf e with _ | k0
      · rw [hr] at hmem
        exact Or.inl hmem
      · rw [hr] at hmem
        rcases mem_bump hmem with hk | hmem
        · exact Or.inr ⟨e, List.mem_cons_self .., hk ▸ hr⟩
        · exact Or.inl hmem
    · exact Or.inr ⟨e', List.mem_cons_of_mem _ he', hk⟩

theorem foldl_failed_nodup (h : Int → Int) (es : List LogEntry) (st : AggState)
    (hst : (st.failedByIP.map Prod.fst).Nodup) :
    (((es.foldl (stepEntry h) st).failedByIP).map Prod.fst).Nodup := by
  induction es generalizing st with
  | nil => exact hst
  | cons e es ih =>
    rw [List.foldl_cons]
    refine ih _ ?_
    rw [stepEntry_failedByIP]
    by_cases hf : failedB e
    · rw [if_pos hf]
      exact nodup_bump hst
    · rw [if_neg hf]
      exact hst

theorem foldl_pm_nodup (h : Int → Int) (es : List LogEntry) (st : AggState)
    (hst : (st.perMinute.map Prod.fst).Nodup) :
    (((es.foldl (stepEntry h) st).perMinute).map Prod.fst).Nodup := by
  induction es generalizing st with
  | nil => exact hst
  | cons e es ih =>
    rw [List.foldl_cons]
    refine ih _ ?_
    rw [stepEntry_perMinute]
    rcases rateKeyOf e with _ | k0
    · exact hst
    · exact nodup_bump hst

/-!
## The anomaly-list decomposition
-/

/-- The immediate per-line "HTTP Error" anomalies, in entry order. -/
def httpBlock (text : List Char) : List Anomaly :=
  ((entriesOf text).filter (fun e => errStatusB e.status)).map mkHttp

theorem analyze_entries (h : Int → Int) (text : List Char) :
    (analyzeLogs h text).entries = entriesOf text := rfl

theorem analyze_decomp (h : Int → Int) (text : List Char) :
    (analyzeLogs h text).anomalies =
      httpBlock text ++ bruteBlock (aggOf h text) ++ errSpikeBlock (aggOf h text) ++
        uaBlock (aggOf h text) ++ rateBlock (aggOf h text) ++
        nightBlock (aggOf h text) := by
  show ((entriesOf text).foldl (stepEntry h) initState).anomalies ++
      bruteBlock (aggOf h text) ++ errSpikeBlock (aggOf h text) ++
      uaBlock (aggOf h text) ++ rateBlock (aggOf h text) ++
      nightBlock (aggOf h text) = _
  rw [foldl_anomalies]
  simp [httpBlock, initState]

theorem mem_httpBlock {text : List Char} {a : Anomaly} :
    a ∈ httpBlock text ↔
      ∃ e ∈ entriesOf text, errStatusB e.status = true ∧ a = mkHttp e := by
  unfold httpBlock
  simp only [List.mem_map, List.mem_filter]
  constructor
  · rintro ⟨e, ⟨he, hs⟩, rfl⟩
    exact ⟨e, he, hs, rfl⟩
  · rintro ⟨e, he, hs, rfl⟩
    exact ⟨e, ⟨he, hs⟩, rfl⟩

theorem mem_bruteBlock {st : AggState} {a : Anomaly} :
    a ∈ bruteBlock st ↔
      ∃ kc ∈ st.failedByIP, 6 ≤ kc.2 ∧ a = mkBrute kc.1 kc.2 := by
  unfold bruteBlock
  simp only [List.mem_filterMap]
  constructor
  · rintro ⟨kc, hkc, hf⟩
    split at hf
    · exact ⟨kc, hkc, by assumption, (Option.some.injEq .. ▸ hf).symm⟩
    · exact absurd hf (by simp)
  · rintro ⟨kc, hkc, h6, rfl⟩
    exact ⟨kc, hkc, by rw [if_pos h6]⟩

theorem mem_errSpikeBlock {st : AggState} {a : Anomaly} :
    a ∈ errSpikeBlock st ↔
      ∃ kc ∈ st.errorsByIP, 12 ≤ kc.2 ∧ a = mkErrSpike kc.1 kc.2 := by
  unfold errSpikeBlock
  simp only [List.mem_filterMap]
  constructor
  · rintro ⟨kc, hkc, hf⟩
    split at hf
    · exact ⟨kc, hkc, by assumption, (Option.some.injEq .. ▸ hf).symm⟩
    · exact absurd hf (by simp)
  · rintro ⟨kc, hkc, h6, rfl⟩
    exact ⟨kc, hkc, by rw [if_pos h6]⟩

theorem mem_rateBlock {st : AggState} {a : Anomaly} :
    a ∈ rateBlock st ↔
      ∃ kc ∈ mkMaxPerIP st.perMinute, 120 < kc.2 ∧ a = mkRate kc.1 kc.2 := by
  unfold rateBlock
  simp only [List.mem_filterMap]
  constructor
  · rintro ⟨kc, hkc, hf⟩
    split at hf
    · exact ⟨kc, hkc, by assumption, (Option.some.injEq .. ▸ hf).symm⟩
    · exact absurd hf (by simp)
  · rintro ⟨kc, hkc, h6, rfl⟩
    exact ⟨kc, hkc, by rw [if_pos h6]⟩

theorem mem_nightBlock {st : AggState} {a : Anomaly} :
    a ∈ nightBlock st ↔
      ∃ kc ∈ st.nightByIP, 100 ≤ kc.2 ∧ a = mkNight kc.1 kc.2 := by
  unfold nightBlock
  simp only [List.mem_filterMap]
  constructor
  · rintro ⟨kc, hkc, hf⟩
    split at hf
    · exact ⟨kc, hkc, by assumption, (Option.some.injEq .. ▸ hf).symm⟩
    · exact absurd hf (by simp)
  · rintro ⟨kc, hkc, h6, rfl⟩
    exact ⟨kc, hkc, by rw [if_pos h6]⟩

theorem mem_uaBlock {st : AggState} {a : Anomaly} :
    a ∈ uaBlock st ↔ st.uaSet.any suspB = true ∧ a = mkSuspUA := by
  unfold uaBlock
  split <;> rename_i hany <;> simp [hany]

/-!
## Anomaly types of the blocks
-/

theorem httpBlock_type {text : List Char} {a : Anomaly} (h : a ∈ httpBlock text) :
    a.type = "HTTP Error".data := by
  rcases mem_httpBlock.mp h with ⟨e, _, _, rfl⟩; rfl

theorem bruteBlock_type {st : AggState} {a : Anomaly} (h : a ∈ bruteBlock st) :
    a.type = "Brute Force".data := by
  rcases mem_bruteBlock.mp h with ⟨kc, _, _, rfl⟩; rfl

theorem errSpikeBlock_type {st : AggState} {a : Anomaly} (h : a ∈ errSpikeBlock st) :
    a.type = "Error Spike".data := by
  rcases mem_errSpikeBlock.mp h with ⟨kc, _, _, rfl⟩; rfl

theorem uaBlock_type {st : AggState} {a : Anomaly} (h : a ∈ uaBlock st) :
    a.type = "Suspicious UA".data := by
  rcases (mem_uaBlock.mp h).2 with rfl; rfl

theorem rateBlock_type {st : AggState} {a : Anomaly} (h : a ∈ rateBlock st) :
    a.type = "Rate Spike".data := by
  rcases mem_rateBlock.mp h with ⟨kc, _, _, rfl⟩; rfl

theorem nightBlock_type {st : AggState} {a : Anomaly} (h : a ∈ nightBlock st) :
    a.type = "Off-hours Activity".data := by
  rcases mem_nightBlock.mp h with ⟨kc, _, _, rfl⟩; rfl

/-!
## Token extraction from anomaly messages
-/

theorem takeWhile_app_cons (p : Char → Bool) (l : List Char) (x : Char)
    (r : List Char) (hl : ∀ c ∈ l, p c = true) (hx : p x = false) :
    (l ++ x :: r).takeWhile p = l ∧ (l ++ x :: r).dropWhile p = x :: r := by
  induction l with
  | nil => simp [List.takeWhile_cons, List.dropWhile_cons, hx]
  | cons c l ih =>
    have hc : p c = true := hl c (List.mem_cons_self ..)
    have hrest := ih (fun d hd => hl d (List.mem_cons_of_mem _ hd))
    simp [List.takeWhile_cons, List.dropWhile_cons, hc, hrest.1, hrest.2]

/-- The text before the first space. -/
def firstTok (s : List Char) : List Char := s.takeWhile (fun c => c ≠ ' ')

/-- The text after the last space. -/
def lastTok (s : List Char) : List Char := (firstTok s.reverse).reverse

theorem firstTok_append (l r : List Char) (hl : ∀ c ∈ l, ¬ c = ' ') :
    firstTok (l ++ ' ' :: r) = l := by
  unfold firstTok
  exact (takeWhile_app_cons _ l ' ' r (by simpa using hl) (by simp)).1

theorem lastTok_append (l r : List Char) (hr : ∀ c ∈ r, ¬ c = ' ') :
    lastTok (l ++ ' ' :: r) = r := by
  unfold lastTok
  have : (l ++ ' ' :: r).reverse = r.reverse ++ ' ' :: l.reverse := by
    simp
  rw [this, firstTok_append _ _ (fun c hc => hr c (List.mem_reverse.mp hc)),
    List.reverse_reverse]

theorem colonHead_append (l r : List Char) (hl : ∀ c ∈ l, ¬ c = ':') :
    colonHead (l ++ ':' :: r) = l := by
  unfold colonHead
  exact (takeWhile_app_cons _ l ':' r (by simpa using hl) (by simp)).1

/-!
## Decimal rendering: correctness and injectivity
-/

theorem digitChar_toNat : ∀ n < 10, (digitChar n).toNat = 48 + n := by decide

theorem digitChar_digitB : ∀ n < 10, digitB (digitChar n) = true := by decide

theorem charsToNat_append_digit (l : List Char) (c : Char) :
    charsToNat (l ++ [c]) = 10 * charsToNat l + (c.toNat - 48) := by
  unfold charsToNat
  rw [List.foldl_append]
  rfl

theorem natCharsAux_val : ∀ fuel n, n < fuel →
    charsToNat (natCharsAux fuel n) = n := by
  intro fuel
  induction fuel with
  | zero => omega
  | succ fuel ih =>
    intro n hn
    by_cases h10 : n < 10
    · simp only [natCharsAux, if_pos h10]
      show charsToNat ([] ++ [digitChar n]) = n
      rw [charsToNat_append_digit, digitChar_toNat n h10]
      simp [charsToNat]
    · simp only [natCharsAux, if_neg h10]
      rw [charsToNat_append_digit, ih (n / 10) (by omega),
        digitChar_toNat (n % 10) (by omega)]
      omega

theorem charsToNat_natChars (n : Nat) : charsToNat (natChars n) = n :=
  natCharsAux_val (n + 1) n (by omega)

theorem natChars_inj {m n : Nat} (h : natChars m = natChars n) : m = n := by
  have := charsToNat_natChars m
  rw [h, charsToNat_natChars] at this
  omega

theorem natCharsAux_digits : ∀ fuel n c, c ∈ natCharsAux fuel n →
    digitB c = true := by
  intro fuel
  induction fuel with
  | zero => intro n c hc; simp [natCharsAux] at hc
  | succ fuel ih =>
    intro n c hc
    by_cases h10 : n < 10
    · simp only [natCharsAux, if_pos h10] at hc
      simp at hc
      exact hc ▸ digitChar_digitB n h10
    · simp only [natCharsAux, if_neg h10] at hc
      rcases List.mem_append.mp hc with hc | hc
      · exact ih _ _ hc
      · simp at hc
        exact hc ▸ digitChar_digitB (n % 10) (by omega)

theorem natChars_digits {n : Nat} {c : Char} (hc : c ∈ natChars n) :
    digitB c = true :=
  natCharsAux_digits (n + 1) n c hc

theorem intChars_inj {i j : Int} (h : intChars i = intChars j) : i = j := by
  unfold intChars at h
  by_cases hi : i < 0 <;> by_cases hj : j < 0
  · rw [if_pos hi, if_pos hj] at h
    injection h with _ h2
    have := natChars_inj h2
    omega
  · rw [if_pos hi, if_neg hj] at h
    have : ('-' : Char) ∈ natChars j.toNat := h ▸ List.mem_cons_self ..
    have := natChars_digits this
    simp [digitB] at this
  · rw [if_neg hi, if_pos hj] at h
    have : ('-' : Char) ∈ natChars i.toNat := h.symm ▸ List.mem_cons_self ..
    have := natChars_digits this
    simp [digitB] at this
  · rw [if_neg hi, if_neg hj] at h
    have := natChars_inj h
    omega

/-- The composite rate key is injective on colon-free addresses. -/
theorem rateKey_inj {a1 a2 : List Char} {b1 b2 : Int}
    (h1 : ∀ c ∈ a1, ¬ c = ':') (h2 : ∀ c ∈ a2, ¬ c = ':')
    (he : a1 ++ ':' :: intChars b1 = a2 ++ ':' :: intChars b2) :
    a1 = a2 ∧ b1 = b2 := by
  have ha : a1 = a2 := by
    have e1 := colonHead_append a1 (intChars b1) h1
    have e2 := colonHead_append a2 (intChars b2) h2
    rw [← e1, ← e2, he]
  subst ha
  refine ⟨rfl, ?_⟩
  have := List.append_cancel_left he
  injection this with _ h3
  exact intChars_inj h3

/-!
## Character-class arithmetic
-/

theorem char_toNat_inj {a b : Char} (h : a.toNat = b.toNat) : a = b :=
  Char.ext (UInt32.ext h)

theorem digitB_not_space {c : Char} (h : digitB c = true) : jsSpace c = false := by
  unfold digitB at h
  unfold jsSpace
  simp only [Bool.and_eq_true, decide_eq_true_eq] at h
  simp only [Bool.or_eq_false_iff, Bool.and_eq_false_iff, decide_eq_false_iff_not]
  omega

theorem not_space_ne_space {c : Char} (h : jsSpace c = false) : ¬ c = ' ' := by
  rintro rfl
  simp [jsSpace] at h

theorem digit_ne_space {c : Char} (h : digitB c = true) : ¬ c = ' ' :=
  not_space_ne_space (digitB_not_space h)

theorem digit_ne_colon {c : Char} (h : digitB c = true) : ¬ c = ':' := by
  rintro rfl
  simp [digitB] at h

/-!
## Shape of the tokens produced by `IP_RE`
-/

theorem dq_build {g1 g2 g3 g4 : List Char}
    (d1 : ∀ c ∈ g1, digitB c = true) (n1 : g1 ≠ []) (l1 : g1.length ≤ 3)
    (d2 : ∀ c ∈ g2, digitB c = true) (n2 : g2 ≠ []) (l2 : g2.length ≤ 3)
    (d3 : ∀ c ∈ g3, digitB c = true) (n3 : g3 ≠ []) (l3 : g3.length ≤ 3)
    (d4 : ∀ c ∈ g4, digitB c = true) (n4 : g4 ≠ []) (l4 : g4.length ≤ 3) :
    dottedQuad (g1 ++ '.' :: g2 ++ '.' :: g3 ++ '.' :: g4) = true := by
  have hdot : digitB '.' = false := by decide
  obtain ⟨t1, r1⟩ :=
    takeWhile_app_cons digitB g1 '.' (g2 ++ '.' :: g3 ++ '.' :: g4) d1 hdot
  obtain ⟨t2, r2⟩ := takeWhile_app_cons digitB g2 '.' (g3 ++ '.' :: g4) d2 hdot
  obtain ⟨t3, r3⟩ := takeWhile_app_cons digitB g3 '.' g4 d3 hdot
  have t4 : List.takeWhile digitB g4 = g4 := List.takeWhile_eq_self_iff.mpr d4
  have w4 : List.dropWhile digitB g4 = [] := List.dropWhile_eq_nil_iff.mpr d4
  simp only [dottedQuad, List.cons_append, List.append_assoc]
  simp only [List.cons_append, List.append_assoc] at t1 r1 t2 r2 t3 r3
  simp only [t1, r1, t2, r2, t3, r3, t4, w4]
  simp [List.isEmpty_iff, n1, n2, n3, n4, l1, l2, l3, l4]

theorem mem_dq_parts {g1 g2 g3 g4 : List Char} {c : Char}
    (hc : c ∈ g1 ++ '.' :: g2 ++ '.' :: g3 ++ '.' :: g4) :
    c ∈ g1 ∨ c ∈ g2 ∨ c ∈ g3 ∨ c ∈ g4 ∨ c = '.' := by
  simp only [List.mem_append, List.mem_cons] at hc
  tauto

theorem ipAt_sound {s tok : List Char} (h : ipAt s = some tok) :
    dottedQuad tok = true ∧ tok ≠ [] ∧
      ∀ c ∈ tok, digitB c = true ∨ c = '.' := by
  simp only [ipAt] at h
  repeat' split at h
  all_goals (try exact Option.noConfusion h)
  all_goals
    (injection h with htok
     subst htok
     refine ⟨dq_build
        (fun c hc => List.mem_takeWhile_imp hc) ?_ ?_
        (fun c hc => List.mem_takeWhile_imp hc) ?_ ?_
        (fun c hc => List.mem_takeWhile_imp hc) ?_ ?_
        (fun c hc => List.mem_takeWhile_imp hc) ?_ ?_, by simp, ?_⟩)
  all_goals try
    (intro c hc
     rcases mem_dq_parts hc with hd | hd | hd | hd | hd
     · exact Or.inl (List.mem_takeWhile_imp hd)
     · exact Or.inl (List.mem_takeWhile_imp hd)
     · exact Or.inl (List.mem_takeWhile_imp hd)
     · exact Or.inl (List.mem_takeWhile_imp hd)
     · exact Or.inr hd)
  all_goals
    simp_all only [Bool.or_eq_true, not_or, Bool.not_eq_true,
      decide_eq_false_iff_not, List.isEmpty_eq_false, ne_eq, not_lt,
      not_false_eq_true, true_and]

theorem ipScan_sound : ∀ (prev : Option Char) (s tok : List Char),
    ipScan prev s = some tok → ∃ su, ipAt su = some tok := by
  intro prev s
  induction s generalizing prev with
  | nil => intro tok h; simp [ipScan] at h
  | cons c rest ih =>
    intro tok h
    simp only [ipScan] at h
    split at h
    · split at h
      · rename_i heq
        refine ⟨c :: rest, ?_⟩
        rw [heq]
        exact h
      · exact ih _ _ h
    · exact ih _ _ h

theorem firstIPMatch_sound {line tok : List Char}
    (h : firstIPMatch line = some tok) :
    dottedQuad tok = true ∧ tok ≠ [] ∧ ∀ c ∈ tok, jsSpace c = false := by
  obtain ⟨su, hsu⟩ := ipScan_sound none line tok h
  obtain ⟨hdq, hne, hmem⟩ := ipAt_sound hsu
  refine ⟨hdq, hne, fun c hc => ?_⟩
  rcases hmem c hc with hd | rfl
  · exact digitB_not_space hd
  · decide

theorem tokenSpace_some {s t r : List Char} (h : tokenSpace s = some (t, r)) :
    t ≠ [] ∧ ∀ c ∈ t, jsSpace c = false := by
  simp only [tokenSpace] at h
  split at h
  · exact Option.noConfusion h
  · rename_i hne
    split at h
    · injection h with h'
      injection h' with h1 h2
      subst h1
      refine ⟨by simpa [List.isEmpty_iff] using hne, fun c hc => ?_⟩
      have := List.mem_takeWhile_imp hc
      simpa using this
    · exact Option.noConfusion h

theorem clf_addr {line : List Char} {f : CLFData} (h : clfMatch line = some f) :
    ∃ r, tokenSpace line = some (f.addr, r) := by
  simp only [clfMatch] at h
  repeat' split at h
  all_goals (try exact Option.noConfusion h)
  injection h with h'
  subst h'
  exact ⟨_, by assumption⟩

/-- Every address `parseLine` extracts is non-empty and whitespace-free:
the combined-format address is a `\S+` token, the other two branches take an
`IP_RE` match (digits and dots). -/
theorem parseLine_ip {line s : List Char} (h : (parseLine line).ip = some s) :
    s ≠ [] ∧ ∀ c ∈ s, jsSpace c = false := by
  rcases hm : clfMatch line with _ | f
  · simp only [parseLine, hm] at h
    split at h
    · exact (firstIPMatch_sound h).2
    · exact (firstIPMatch_sound h).2
  · simp only [parseLine, hm] at h
    obtain ⟨r, htok⟩ := clf_addr hm
    obtain ⟨hne, hsp⟩ := tokenSpace_some htok
    injection h with h'
    subst h'
    exact ⟨hne, hsp⟩

/-- The aggregation key of an entry contains no space character. -/
theorem ipKey_no_space {line : List Char} (c : Char)
    (hc : c ∈ ipKey (parseLine line)) : ¬ c = ' ' := by
  unfold ipKey at hc
  rcases hip : (parseLine line).ip with _ | s
  · rw [hip] at hc
    have hu : ∀ d ∈ ("unknown".data : List Char), ¬ d = ' ' := by decide
    exact hu c hc
  · rw [hip] at hc
    exact not_space_ne_space ((parseLine_ip hip).2 c hc)

/-!
## `maxPerIP` as a per-prefix maximum
-/

/-- The `perMinute` counts whose key has colon-prefix `p`, in map order. -/
def prefHits (pm : List (List Char × Nat)) (p : List Char) : List Nat :=
  pm.filterMap (fun kc => if colonHead kc.1 = p then some kc.2 else none)

theorem mem_prefHits {pm : List (List Char × Nat)} {p : List Char} {v : Nat} :
    v ∈ prefHits pm p ↔ ∃ kc ∈ pm, colonHead kc.1 = p ∧ kc.2 = v := by
  unfold prefHits
  simp only [List.mem_filterMap]
  constructor
  · rintro ⟨kc, hkc, hf⟩
    split at hf
    · exact ⟨kc, hkc, by assumption, Option.some.injEq .. ▸ hf⟩
    · exact Option.noConfusion hf
  · rintro ⟨kc, hkc, hp, rfl⟩
    exact ⟨kc, hkc, by rw [if_pos hp]⟩

theorem mkMaxPerIP_foldl (pm : List (List Char × Nat))
    (acc : List (List Char × Nat)) (p : List Char) :
    alook (pm.foldl (fun a kc => bumpMax a (colonHead kc.1) kc.2) acc) p =
      (prefHits pm p).foldl (fun o c => some (jsMax o c)) (alook acc p) := by
  induction pm generalizing acc with
  | nil => simp [prefHits]
  | cons kc pm ih =>
    obtain ⟨k, c⟩ := kc
    rw [List.foldl_cons, ih]
    by_cases hp : colonHead k = p
    · rw [alook_bumpMax, if_pos hp.symm, hp]
      simp [prefHits, List.filterMap_cons, hp]
    · rw [alook_bumpMax, if_neg (fun hh => hp hh.symm)]
      simp [prefHits, List.filterMap_cons, hp]

theorem alook_mkMaxPerIP (pm : List (List Char × Nat)) (p : List Char) :
    alook (mkMaxPerIP pm) p =
      (prefHits pm p).foldl (fun o c => some (jsMax o c)) none := by
  unfold mkMaxPerIP
  rw [mkMaxPerIP_foldl]
  simp [alook]

theorem jfold_some (l : List Nat) (v : Nat) :
    l.foldl (fun o c => some (jsMax o c)) (some v) = some (l.foldl max v) := by
  induction l generalizing v with
  | nil => simp
  | cons c l ih =>
    rw [List.foldl_cons, List.foldl_cons]
    rw [show jsMax (some v) c = max v c from jsMax_eq_max (some v) c]
    exact ih (max v c)

theorem jfold_none (l : List Nat) :
    l.foldl (fun o c => some (jsMax o c)) none =
      match l with
      | [] => none
      | c :: cs => some (cs.foldl max c) := by
  cases l with
  | nil => rfl
  | cons c cs =>
    rw [List.foldl_cons]
    rw [show jsMax none c = c from rfl]
    exact jfold_some cs c

theorem foldl_max_eq (l : List Nat) (a : Nat) : l.foldl max a = max a (lmax l) := by
  induction l generalizing a with
  | nil => simp [lmax]
  | cons c l ih =>
    have hl : lmax (c :: l) = max c (lmax l) := by
      unfold lmax
      rw [List.foldl_cons, ih, ih]
      omega
    rw [List.foldl_cons, ih, hl]
    omega

theorem lmax_cons (c : Nat) (l : List Nat) : lmax (c :: l) = max c (lmax l) := by
  unfold lmax
  rw [List.foldl_cons, foldl_max_eq, foldl_max_eq]
  omega

theorem le_lmax {l : List Nat} {v : Nat} (h : v ∈ l) : v ≤ lmax l := by
  induction l with
  | nil => simp at h
  | cons c l ih =>
    rw [lmax_cons]
    rcases List.mem_cons.mp h with rfl | h
    · omega
    · have := ih h
      omega

theorem lmax_mem {l : List Nat} (h : l ≠ []) : lmax l ∈ l := by
  induction l with
  | nil => exact absurd rfl h
  | cons c l ih =>
    rcases List.eq_nil_or_concat l with rfl | hne'
    · have hc : lmax [c] = c := by simp [lmax]
      rw [hc]
      exact List.mem_cons_self ..
    · have hln : l ≠ [] := by
        rcases hne' with ⟨_, _, rfl⟩
        simp
      by_cases hc : lmax l ≤ c
      · have he : lmax (c :: l) = c := by rw [lmax_cons]; omega
        rw [he]
        exact List.mem_cons_self ..
      · have he : lmax (c :: l) = lmax l := by rw [lmax_cons]; omega
        rw [he]
        exact List.mem_cons_of_mem _ (ih hln)

theorem lmax_congr {l1 l2 : List Nat} (h : ∀ v, v ∈ l1 ↔ v ∈ l2) :
    lmax l1 = lmax l2 := by
  rcases List.eq_nil_or_concat l1 with rfl | _
  · rcases List.eq_nil_or_concat l2 with rfl | ⟨l2', v, rfl⟩
    · rfl
    · have : v ∈ ([] : List Nat) := (h v).mpr (by simp)
      simp at this
  · rcases List.eq_nil_or_concat l2 with rfl | _
    · have hne : l1 ≠ [] := by rintro rfl; simp_all
      have : lmax l1 ∈ ([] : List Nat) := (h _).mp (lmax_mem hne)
      simp at this
    · have hne1 : l1 ≠ [] := by rintro rfl; simp_all
      have hne2 : l2 ≠ [] := by rintro rfl; simp_all
      exact Nat.le_antisymm (le_lmax ((h _).mp (lmax_mem hne1)))
        (le_lmax ((h _).mpr (lmax_mem hne2)))

theorem mkMaxPerIP_nodup (pm : List (List Char × Nat)) :
    ((mkMaxPerIP pm).map Prod.fst).Nodup := by
  unfold mkMaxPerIP
  suffices hsuf : ∀ acc : List (List Char × Nat), (acc.map Prod.fst).Nodup →
      (((pm.foldl (fun a kc => bumpMax a (colonHead kc.1) kc.2) acc)).map
        Prod.fst).Nodup by
    exact hsuf [] (by simp)
  induction pm with
  | nil => intro acc hacc; exact hacc
  | cons kc pm ih =>
    intro acc hacc
    rw [List.foldl_cons]
    exact ih _ (nodup_bumpMax hacc)

theorem mkMaxPerIP_keys_aux : ∀ (pm acc : List (List Char × Nat))
    (pr : List Char × Nat),
    pr ∈ pm.foldl (fun a kc => bumpMax a (colonHead kc.1) kc.2) acc →
    pr ∈ acc ∨ ∃ kc ∈ pm, pr.1 = colonHead kc.1 := by
  intro pm
  induction pm with
  | nil => intro acc pr h; exact Or.inl h
  | cons kc pm ih =>
    intro acc pr h
    rw [List.foldl_cons] at h
    rcases ih _ _ h with hmem | ⟨kc', hkc', hp⟩
    · rcases mem_bumpMax hmem with hp | hmem
      · exact Or.inr ⟨kc, List.mem_cons_self .., hp⟩
      · exact Or.inl hmem
    · exact Or.inr ⟨kc', List.mem_cons_of_mem _ hkc', hp⟩

theorem mkMaxPerIP_keys {pm : List (List Char × Nat)} {pr : List Char × Nat}
    (h : pr ∈ mkMaxPerIP pm) : ∃ kc ∈ pm, pr.1 = colonHead kc.1 := by
  rcases mkMaxPerIP_keys_aux pm [] pr h with hmem | hex
  · simp at hmem
  · exact hex

/-!
## Inputs built from repeated lines
-/

/-- Join lines with a bare newline. -/
def joinNL : List (List Char) → List Char
  | [] => []
  | [l] => l
  | l :: ls => l ++ '\n' :: joinNL ls

theorem splitLines_noBreak {l : List Char}
    (h : ∀ c ∈ l, ¬ c = '\n' ∧ ¬ c = '\r') : splitLines l = [l] := by
  induction l with
  | nil => rfl
  | cons c l ih =>
    have hc := h c (List.mem_cons_self ..)
    simp only [splitLines]
    rw [if_neg hc.1, if_neg (fun hh => hc.2 hh.1),
      ih (fun d hd => h d (List.mem_cons_of_mem _ hd))]
    rfl

theorem splitLines_append {l t : List Char}
    (h : ∀ c ∈ l, ¬ c = '\n' ∧ ¬ c = '\r') :
    splitLines (l ++ '\n' :: t) = l :: splitLines t := by
  induction l with
  | nil =>
    simp [splitLines]
  | cons c l ih =>
    have hc := h c (List.mem_cons_self ..)
    simp only [List.cons_append, splitLines, List.append_eq]
    rw [if_neg hc.1, if_neg (fun hh => hc.2 hh.1),
      ih (fun d hd => h d (List.mem_cons_of_mem _ hd))]
    rfl

theorem nonEmptyLines_joinNL {ls : List (List Char)}
    (h : ∀ l ∈ ls, l ≠ [] ∧ ∀ c ∈ l, ¬ c = '\n' ∧ ¬ c = '\r') (hne : ls ≠ []) :
    nonEmptyLines (joinNL ls) = ls := by
  induction ls with
  | nil => exact absurd rfl hne
  | cons l ls ih =>
    rcases ls with _ | ⟨l2, ls2⟩
    · show nonEmptyLines (joinNL [l]) = [l]
      have hl := h l (List.mem_cons_self ..)
      unfold nonEmptyLines
      show (splitLines l).filter (fun x => !x.isEmpty) = [l]
      rw [splitLines_noBreak hl.2]
      simp [List.filter_cons, List.isEmpty_iff, hl.1]
    · have hl := h l (List.mem_cons_self ..)
      show nonEmptyLines (l ++ '\n' :: joinNL (l2 :: ls2)) = l :: l2 :: ls2
      unfold nonEmptyLines
      rw [splitLines_append hl.2, List.filter_cons]
      have hlne : (!l.isEmpty) = true := by
        simpa [List.isEmpty_iff] using hl.1
      rw [if_pos hlne]
      have := ih (fun l' hl' => h l' (List.mem_cons_of_mem _ hl')) (by simp)
      unfold nonEmptyLines at this
      rw [this]

theorem entriesOf_replicate {line : List Char} (hne : line ≠ [])
    (hcl : ∀ c ∈ line, ¬ c = '\n' ∧ ¬ c = '\r') (n : Nat) (hn : n ≠ 0) :
    entriesOf (joinNL (List.replicate n line)) =
      List.replicate n (parseLine line) := by
  unfold entriesOf
  rw [nonEmptyLines_joinNL
      (fun l hl => (List.eq_of_mem_replicate hl) ▸ ⟨hne, hcl⟩)
      (by simpa using hn),
    List.map_replicate]

/-- A loop step for an entry that only touches the user-agent set and the
per-minute counter. -/
theorem stepEntry_quiet {hourOf : Int → Int} {st : AggState} {e : LogEntry}
    {t : Int} {a u : List Char}
    (hf : failedB e = false) (he : errStatusB e.status = false)
    (hua : e.ua = some u) (hts : e.ts = some t) (hip : e.ip = some a)
    (hnight : ¬ (0 ≤ hourOf t ∧ hourOf t < 5)) :
    stepEntry hourOf st e =
      { st with uaSet := addUA st.uaSet u,
                perMinute := bump st.perMinute
                  (a ++ ':' :: intChars (Int.fdiv t 60000)) } := by
  unfold stepEntry updRate updUA updErr updFailed
  simp [hf, he, hua, hts, hip, hnight]

theorem foldl_replicate_quiet {hourOf : Int → Int} {e : LogEntry} {t : Int}
    {a u : List Char}
    (hf : failedB e = false) (he : errStatusB e.status = false)
    (hua : e.ua = some u) (hts : e.ts = some t) (hip : e.ip = some a)
    (hnight : ¬ (0 ≤ hourOf t ∧ hourOf t < 5)) : ∀ n : Nat,
    (List.replicate (n + 1) e).foldl (stepEntry hourOf) initState =
      ⟨[], [], [], [u], [(a ++ ':' :: intChars (Int.fdiv t 60000), n + 1)], []⟩ := by
  intro n
  induction n with
  | zero =>
    show List.foldl (stepEntry hourOf) initState [e] = _
    rw [List.foldl_cons, List.foldl_nil,
      stepEntry_quiet hf he hua hts hip hnight]
    simp [initState, addUA, bump]
  | succ n ih =>
    rw [List.replicate_succ' (n + 1) e, List.foldl_append, ih,
      List.foldl_cons, List.foldl_nil,
      stepEntry_quiet hf he hua hts hip hnight]
    simp [addUA, bump]

/-- `(analyzeLogs h text).anomalies`, written through the aggregate state. -/
theorem anoms_eq (h : Int → Int) (text : List Char) :
    (analyzeLogs h text).anomalies =
      (fun st => st.anomalies ++ bruteBlock st ++ errSpikeBlock st ++
        uaBlock st ++ rateBlock st ++ nightBlock st)
        ((entriesOf text).foldl (stepEntry h) initState) := rfl

/-!
## Concrete inputs for the claims
-/

def rateLine : List Char :=
  "1.2.3.4 - - [10/Oct/2000:13:55:36 -0700] \"GET / HTTP/1.0\" 200 7 \"-\" \"x\"".data

def rateE : LogEntry :=
  ⟨rateLine, some "1.2.3.4".data, some 200, some 971211336000,
   some "GET".data, some "/".data, some "x".data, []⟩

def rateText (n : Nat) : List Char := joinNL (List.replicate n rateLine)

theorem parse_rateLine : parseLine rateLine = rateE := by decide

theorem analyze_rateText (n : Nat) :
    (analyzeLogs hourNoon (rateText (n + 1))).anomalies =
      if 120 < n + 1 then
        [⟨"Rate Spike".data,
          "1.2.3.4".data ++ " peaked at ".data ++ natChars (n + 1) ++
            " req/min".data, none⟩]
      else [] := by
  rw [anoms_eq]
  show (fun st => st.anomalies ++ bruteBlock st ++ errSpikeBlock st ++
      uaBlock st ++ rateBlock st ++ nightBlock st)
      ((entriesOf (joinNL (List.replicate (n + 1) rateLine))).foldl
        (stepEntry hourNoon) initState) = _
  have hf : failedB rateE = false := by decide
  have he : errStatusB rateE.status = false := by decide
  have hua : rateE.ua = some "x".data := rfl
  have hts : rateE.ts = some 971211336000 := rfl
  have hip : rateE.ip = some "1.2.3.4".data := rfl
  have hnight : ¬ (0 ≤ hourNoon 971211336000 ∧ hourNoon 971211336000 < 5) := by
    decide
  rw [entriesOf_replicate (by decide) (by decide) (n + 1) (by omega),
    parse_rateLine, foldl_replicate_quiet hf he hua hts hip hnight n]
  show [] ++ [] ++ [] ++ [] ++
      rateBlock ⟨[], [], [], ["x".data],
        [("1.2.3.4".data ++ ':' :: intChars (Int.fdiv 971211336000 60000),
          n + 1)], []⟩ ++ [] = _
  rw [List.append_nil, List.nil_append, List.nil_append, List.nil_append,
    List.nil_append]
  unfold rateBlock mkMaxPerIP
  rw [List.foldl_cons, List.foldl_nil]
  show (bumpMax []
      (colonHead ("1.2.3.4".data ++ ':' :: intChars (Int.fdiv 971211336000 60000)))
      (n + 1)).filterMap _ = _
  rw [show colonHead ("1.2.3.4".data ++ ':' ::
      intChars (Int.fdiv 971211336000 60000)) = "1.2.3.4".data from by decide]
  show [("1.2.3.4".data, n + 1)].filterMap _ = _
  rw [List.filterMap_cons]
  by_cases h120 : 120 < n + 1
  · rw [if_pos h120]
    simp only [List.filterMap_nil, if_pos h120]
    rfl
  · rw [if_neg h120]
    simp only [List.filterMap_nil, if_neg h120]

def colonLine : List Char :=
  "1.2.3.4:80 - - [10/Oct/2000:13:55:36 -0700] \"GET / HTTP/1.0\" 200 7 \"-\" \"x\"".data

def colonE : LogEntry :=
  ⟨colonLine, some "1.2.3.4:80".data, some 200, some 971211336000,
   some "GET".data, some "/".data, some "x".data, []⟩

def colonText (n : Nat) : List Char := joinNL (List.replicate n colonLine)

theorem parse_colonLine : parseLine colonLine = colonE := by decide

theorem analyze_colonText (n : Nat) :
    (analyzeLogs hourNoon (colonText (n + 1))).anomalies =
      if 120 < n + 1 then
        [⟨"Rate Spike".data,
          "1.2.3.4".data ++ " peaked at ".data ++ natChars (n + 1) ++
            " req/min".data, none⟩]
      else [] := by
  rw [anoms_eq]
  show (fun st => st.anomalies ++ bruteBlock st ++ errSpikeBlock st ++
      uaBlock st ++ rateBlock st ++ nightBlock st)
      ((entriesOf (joinNL (List.replicate (n + 1) colonLine))).foldl
        (stepEntry hourNoon) initState) = _
  have hf : failedB colonE = false := by decide
  have he : errStatusB colonE.status = false := by decide
  have hua : colonE.ua = some "x".data := rfl
  have hts : colonE.ts = some 971211336000 := rfl
  have hip : colonE.ip = some "1.2.3.4:80".data := rfl
  have hnight : ¬ (0 ≤ hourNoon 971211336000 ∧ hourNoon 971211336000 < 5) := by
    decide
  rw [entriesOf_replicate (by decide) (by decide) (n + 1) (by omega),
    parse_colonLine, foldl_replicate_quiet hf he hua hts hip hnight n]
  show [] ++ [] ++ [] ++ [] ++
      rateBlock ⟨[], [], [], ["x".data],
        [("1.2.3.4:80".data ++ ':' :: intChars (Int.fdiv 971211336000 60000),
          n + 1)], []⟩ ++ [] = _
  rw [List.append_nil, List.nil_append, List.nil_append, List.nil_append,
    List.nil_append]
  unfold rateBlock mkMaxPerIP
  rw [List.foldl_cons, List.foldl_nil]
  show (bumpMax []
      (colonHead ("1.2.3.4:80".data ++ ':' ::
        intChars (Int.fdiv 971211336000 60000)))
      (n + 1)).filterMap _ = _
  rw [show colonHead ("1.2.3.4:80".data ++ ':' ::
      intChars (Int.fdiv 971211336000 60000)) = "1.2.3.4".data from by decide]
  show [("1.2.3.4".data, n + 1)].filterMap _ = _
  rw [List.filterMap_cons]
  by_cases h120 : 120 < n + 1
  · rw [if_pos h120]
    simp only [List.filterMap_nil, if_pos h120]
    rfl
  · rw [if_neg h120]
    simp only [List.filterMap_nil, if_neg h120]

/-!
## Membership in the full anomaly list, block by block
-/

theorem mem_of_httpBlock {h : Int → Int} {text : List Char} {a : Anomaly}
    (ha : a ∈ httpBlock text) : a ∈ (analyzeLogs h text).anomalies := by
  rw [analyze_decomp]
  exact List.mem_append_left _ (List.mem_append_left _ (List.mem_append_left _
    (List.mem_append_left _ (List.mem_append_left _ ha))))

theorem mem_of_bruteBlock {h : Int → Int} {text : List Char} {a : Anomaly}
    (ha : a ∈ bruteBlock (aggOf h text)) :
    a ∈ (analyzeLogs h text).anomalies := by
  rw [analyze_decomp]
  exact List.mem_append_left _ (List.mem_append_left _ (List.mem_append_left _
    (List.mem_append_left _ (List.mem_append_right _ ha))))

theorem mem_of_rateBlock {h : Int → Int} {text : List Char} {a : Anomaly}
    (ha : a ∈ rateBlock (aggOf h text)) :
    a ∈ (analyzeLogs h text).anomalies := by
  rw [analyze_decomp]
  exact List.mem_append_left _ (List.mem_append_right _ ha)

theorem anoms_cases {h : Int → Int} {text : List Char} {a : Anomaly}
    (ha : a ∈ (analyzeLogs h text).anomalies) :
    a ∈ httpBlock text ∨ a ∈ bruteBlock (aggOf h text) ∨
      a ∈ errSpikeBlock (aggOf h text) ∨ a ∈ uaBlock (aggOf h text) ∨
      a ∈ rateBlock (aggOf h text) ∨ a ∈ nightBlock (aggOf h text) := by
  rw [analyze_decomp] at ha
  simp only [List.mem_append] at ha
  tauto

/-!
## Claims
-/

/-- Claim C1: for every input string (and every host clock) `analyzeLogs` is a
total function — the Lean embedding returns a value for all inputs — and
returns exactly one `LogEntry` per non-empty line of the input, lines being
split at `\n` or `\r\n`; on the empty string it returns empty entries and
empty anomalies. -/
theorem claim_C1_entries_per_line (h : Int → Int) (text : List Char) :
    (analyzeLogs h text).entries.length = (nonEmptyLines text).length ∧
      analyzeLogs h [] = ⟨[], []⟩ := by
  constructor
  · show (entriesOf text).length = _
    unfold entriesOf
    exact List.length_map ..
  · rfl

/-- Claim C2: the anomaly list returned by `analyzeLogs` is exactly the
concatenation, in order, of the immediate HTTP-Error anomalies (in entry
order), the Brute Force anomalies, the Error Spike anomalies, the Suspicious
UA anomaly (if any), the Rate Spike anomalies and the Off-hours anomalies. -/
theorem claim_C2_anomaly_order (h : Int → Int) (text : List Char) :
    (analyzeLogs h text).anomalies =
      httpBlock text ++ bruteBlock (aggOf h text) ++
        errSpikeBlock (aggOf h text) ++ uaBlock (aggOf h text) ++
        rateBlock (aggOf h text) ++ nightBlock (aggOf h text) :=
  analyze_decomp h text

def clf404Line : List Char :=
  "1.2.3.4 - - [10/Oct/2000:13:55:36 -0700] \"GET /x HTTP/1.0\" 404 5 \"-\" \"Mozilla/5.0\"".data

/-- Claim C3: the "HTTP Error" anomalies are exactly one per entry whose
status is in {403, 404, 500, 502, 503}, in entry order, with message
`HTTP <status> from <address>` and the raw line attached; a combined-format
line with status 404 yields exactly one such anomaly citing 404 and the
address. -/
theorem claim_C3_http_error (h : Int → Int) (text : List Char) :
    ((analyzeLogs h text).anomalies.filter
        (fun a => a.type = "HTTP Error".data)) =
      ((analyzeLogs h text).entries.filter
        (fun e => errStatusB e.status)).map mkHttp ∧
    (∀ e : LogEntry, mkHttp e =
      ⟨"HTTP Error".data,
       "HTTP ".data ++ natChars (e.status.getD 0) ++ " from ".data ++ ipKey e,
       some e.raw⟩) ∧
    (analyzeLogs hourNoon clf404Line).anomalies =
      [⟨"HTTP Error".data, "HTTP 404 from 1.2.3.4".data, some clf404Line⟩] := by
  refine ⟨?_, fun e => rfl, by decide⟩
  rw [analyze_decomp, List.filter_append, List.filter_append,
    List.filter_append, List.filter_append, List.filter_append]
  have h1 : (httpBlock text).filter (fun a => a.type = "HTTP Error".data) =
      httpBlock text :=
    List.filter_eq_self.mpr (fun a ha => by simp [httpBlock_type ha])
  have h2 : (bruteBlock (aggOf h text)).filter
      (fun a => a.type = "HTTP Error".data) = [] :=
    List.filter_eq_nil_iff.mpr (fun a ha => by simp [bruteBlock_type ha])
  have h3 : (errSpikeBlock (aggOf h text)).filter
      (fun a => a.type = "HTTP Error".data) = [] :=
    List.filter_eq_nil_iff.mpr (fun a ha => by simp [errSpikeBlock_type ha])
  have h4 : (uaBlock (aggOf h text)).filter
      (fun a => a.type = "HTTP Error".data) = [] :=
    List.filter_eq_nil_iff.mpr (fun a ha => by simp [uaBlock_type ha])
  have h5 : (rateBlock (aggOf h text)).filter
      (fun a => a.type = "HTTP Error".data) = [] :=
    List.filter_eq_nil_iff.mpr (fun a ha => by simp [rateBlock_type ha])
  have h6 : (nightBlock (aggOf h text)).filter
      (fun a => a.type = "HTTP Error".data) = [] :=
    List.filter_eq_nil_iff.mpr (fun a ha => by simp [nightBlock_type ha])
  rw [h1, h2, h3, h4, h5, h6]
  simp [httpBlock, analyze_entries]

theorem entriesOf_origin {text : List Char} {e : LogEntry}
    (he : e ∈ entriesOf text) : ∃ line, e = parseLine line := by
  unfold entriesOf at he
  rcases List.mem_map.mp he with ⟨line, _, rfl⟩
  exact ⟨line, rfl⟩

/-- The failed-login keys of the aggregate state are space-free. -/
theorem failed_key_no_space {h : Int → Int} {text : List Char}
    {p : List Char × Nat} (hp : p ∈ (aggOf h text).failedByIP) :
    ∀ c ∈ p.1, ¬ c = ' ' := by
  rcases foldl_failed_keys h (entriesOf text) initState p hp with hmem | ⟨e, he, hk⟩
  · simp [initState] at hmem
  · intro c hc
    rcases entriesOf_origin he with ⟨line, rfl⟩
    exact ipKey_no_space c (hk ▸ hc)

theorem lastTok_bruteMsg (ip : List Char) (cnt : Nat)
    (hip : ∀ c ∈ ip, ¬ c = ' ') :
    lastTok (natChars cnt ++ " failed logins from ".data ++ ip) = ip := by
  have hsep : (" failed logins from ".data : List Char) =
      " failed logins from".data ++ [' '] := by decide
  rw [hsep]
  simp only [List.append_assoc, List.singleton_append]
  rw [← List.append_assoc]
  exact lastTok_append _ _ hip

def sshLine : List Char :=
  "Jan  1 00:00:00 host sshd[1]: Failed password for root from 10.0.0.5 port 22 ssh2".data

def brute7Text : List Char := joinNL (List.replicate 7 sshLine)

/-- Claim C4: a "Brute Force" anomaly citing address `ip` and its
failed-login count is emitted iff that count is at least 6 (so exactly 5
does not fire); and the 7-line `Failed password` example yields exactly the
single anomaly `7 failed logins from 10.0.0.5` and nothing else. -/
theorem claim_C4_brute_force (h : Int → Int) (text : List Char)
    (ip : List Char) (hip : ∀ c ∈ ip, ¬ c = ' ') :
    ((mkBrute ip (failedCount text ip)) ∈ (analyzeLogs h text).anomalies ↔
      6 ≤ failedCount text ip) ∧
    (analyzeLogs hourNoon brute7Text).anomalies =
      [⟨"Brute Force".data, "7 failed logins from 10.0.0.5".data, none⟩] := by
  refine ⟨⟨?_, ?_⟩, by decide⟩
  · intro hmem
    rcases anoms_cases hmem with hb | hb | hb | hb | hb | hb
    · have hbf : ("Brute Force".data : List Char) = "HTTP Error".data :=
        httpBlock_type hb
      exact absurd hbf (by decide)
    · rcases mem_bruteBlock.mp hb with ⟨⟨p, c⟩, hpc, h6, heq⟩
      have hpns : ∀ c ∈ p, ¬ c = ' ' := failed_key_no_space hpc
      injection heq with _ hmsg _
      have hipeq : ip = p := by
        have e1 := lastTok_bruteMsg ip (failedCount text ip) hip
        have e2 := lastTok_bruteMsg p c hpns
        rw [← e1, ← e2]
        show lastTok (mkBrute ip (failedCount text ip)).message =
          lastTok (mkBrute p c).message
        rw [show (mkBrute ip (failedCount text ip)).message =
            natChars (failedCount text ip) ++ " failed logins from ".data ++ ip
          from rfl, hmsg]
        rfl
      subst hipeq
      have hnd : (((aggOf h text).failedByIP).map Prod.fst).Nodup :=
        foldl_failed_nodup h (entriesOf text) initState (by simp [initState])
      have hlook2 : alook
          ((entriesOf text).foldl (stepEntry h) initState).failedByIP ip =
          some c := mem_alook hnd hpc
      have hcnt := foldl_failedByIP h (entriesOf text) initState ip
      rw [hlook2] at hcnt
      show 6 ≤ (entriesOf text).countP (failedHit ip)
      have h6' : 6 ≤ c := h6
      rcases hc0 : (entriesOf text).countP (failedHit ip) with _ | m
      · rw [hc0] at hcnt
        simp [initState, alook, mergeCnt] at hcnt
      · rw [hc0] at hcnt
        simp [initState, alook, mergeCnt] at hcnt
        omega
    · have hbf : ("Brute Force".data : List Char) = "Error Spike".data :=
        errSpikeBlock_type hb
      exact absurd hbf (by decide)
    · have hbf : ("Brute Force".data : List Char) = "Suspicious UA".data :=
        uaBlock_type hb
      exact absurd hbf (by decide)
    · have hbf : ("Brute Force".data : List Char) = "Rate Spike".data :=
        rateBlock_type hb
      exact absurd hbf (by decide)
    · have hbf : ("Brute Force".data : List Char) = "Off-hours Activity".data :=
        nightBlock_type hb
      exact absurd hbf (by decide)
  · intro h6
    refine mem_of_bruteBlock (mem_bruteBlock.mpr
      ⟨(ip, failedCount text ip), ?_, h6, rfl⟩)
    have hcnt := foldl_failedByIP h (entriesOf text) initState ip
    have : alook (aggOf h text).failedByIP ip =
        some (failedCount text ip) := by
      rw [show aggOf h text =
          (entriesOf text).foldl (stepEntry h) initState from rfl, hcnt]
      show mergeCnt (alook [] ip) (failedCount text ip) = _
      rcases hc0 : failedCount text ip with _ | m
      · omega
      · simp [alook, mergeCnt]
    exact alook_mem this

def curlLine : List Char := "log \"curl/7.68.0\" tail".data

def curl2Text : List Char := joinNL [curlLine, curlLine]

/-- Claim C6: exactly one "Suspicious UA" anomaly is emitted iff some
user-agent string seen in the input matches one of curl, wget, postman,
python-requests, go-http-client, sqlmap case-insensitively, and zero
otherwise — one anomaly total no matter how many matching lines, distinct
agents or addresses (two identical curl lines still yield exactly one). -/
theorem claim_C6_suspicious_ua (h : Int → Int) (text : List Char) :
    ((analyzeLogs h text).anomalies.filter
        (fun a => a.type = "Suspicious UA".data)) =
      (if (entriesOf text).any (fun e =>
            match e.ua with
            | some u => suspB u
            | none => false) then [mkSuspUA] else []) ∧
    (analyzeLogs hourNoon curl2Text).anomalies = [mkSuspUA] := by
  refine ⟨?_, by decide⟩
  rw [analyze_decomp, List.filter_append, List.filter_append,
    List.filter_append, List.filter_append, List.filter_append]
  have h1 : (httpBlock text).filter
      (fun a => a.type = "Suspicious UA".data) = [] :=
    List.filter_eq_nil_iff.mpr (fun a ha => by simp [httpBlock_type ha])
  have h2 : (bruteBlock (aggOf h text)).filter
      (fun a => a.type = "Suspicious UA".data) = [] :=
    List.filter_eq_nil_iff.mpr (fun a ha => by simp [bruteBlock_type ha])
  have h3 : (errSpikeBlock (aggOf h text)).filter
      (fun a => a.type = "Suspicious UA".data) = [] :=
    List.filter_eq_nil_iff.mpr (fun a ha => by simp [errSpikeBlock_type ha])
  have h4 : (uaBlock (aggOf h text)).filter
      (fun a => a.type = "Suspicious UA".data) = uaBlock (aggOf h text) :=
    List.filter_eq_self.mpr (fun a ha => by simp [uaBlock_type ha])
  have h5 : (rateBlock (aggOf h text)).filter
      (fun a => a.type = "Suspicious UA".data) = [] :=
    List.filter_eq_nil_iff.mpr (fun a ha => by simp [rateBlock_type ha])
  have h6 : (nightBlock (aggOf h text)).filter
      (fun a => a.type = "Suspicious UA".data) = [] :=
    List.filter_eq_nil_iff.mpr (fun a ha => by simp [nightBlock_type ha])
  rw [h1, h2, h3, h4, h5, h6]
  simp only [List.nil_append, List.append_nil]
  have hcond : (aggOf h text).uaSet.any suspB =
      (entriesOf text).any (fun e =>
        match e.ua with
        | some u => suspB u
        | none => false) := by
    have hiff : ((aggOf h text).uaSet.any suspB = true) ↔
        ((entriesOf text).any (fun e =>
          match e.ua with
          | some u => suspB u
          | none => false) = true) := by
      rw [List.any_eq_true, List.any_eq_true]
      constructor
      · rintro ⟨u, hu, hsusp⟩
        have hu2 : u ∈ ((entriesOf text).foldl (stepEntry h) initState).uaSet :=
          hu
        rcases (foldl_uaSet h (entriesOf text) initState u).mp hu2 with
          h0 | ⟨e, he, hua⟩
        · simp [initState] at h0
        · exact ⟨e, he, by rw [hua]; exact hsusp⟩
      · rintro ⟨e, he, hf⟩
        rcases hua : e.ua with _ | u
        · rw [hua] at hf
          simp at hf
        · rw [hua] at hf
          refine ⟨u, ?_, hf⟩
          show u ∈ ((entriesOf text).foldl (stepEntry h) initState).uaSet
          exact (foldl_uaSet h (entriesOf text) initState u).mpr
            (Or.inr ⟨e, he, hua⟩)
    cases hx : (aggOf h text).uaSet.any suspB <;>
      cases hy : (entriesOf text).any (fun e =>
        match e.ua with
        | some u => suspB u
        | none => false) <;> simp_all
  unfold uaBlock
  rw [hcond]

def epochLine : List Char :=
  "1.2.3.4 - - [01/Jan/1970:00:00:00 +0000] \"GET / HTTP/1.0\" 200 5 \"-\" \"x\"".data

def epochDate : List Char := "01/Jan/1970:00:00:00 +0000".data

/-- Claim C7 counterexample: the combined-format line with the well-formed
timestamp `01/Jan/1970:00:00:00 +0000` parses to the absolute instant 0, yet
the returned entry carries no timestamp — the source's `if (ts)` guard drops
the falsy instant 0 — refuting the claim that a well-formed timestamp always
makes the entry's timestamp present and equal to the instant. -/
theorem claim_C7_counterexample :
    (clfMatch epochLine).map (fun f => f.date) = some epochDate ∧
      parseApacheDate epochDate = some 0 ∧
      (parseLine epochLine).ip = some "1.2.3.4".data ∧
      (parseLine epochLine).ts = none := by
  refine ⟨by decide, by decide, by decide, by decide⟩

/-- Claim C7 (amended): on a combined-format line, the entry always carries
the matched address, method, path, status and user-agent, and its timestamp
is the parsed absolute instant when the timestamp substring parses to a
NONZERO instant; when the substring fails to parse — or parses to exactly
instant 0, which the source's falsy-value guard discards — the timestamp is
absent while the other fields remain. -/
theorem claim_C7_clf_fields (line : List Char) (f : CLFData)
    (hm : clfMatch line = some f) :
    (parseLine line).ip = some f.addr ∧
      (parseLine line).method = some f.method ∧
      (parseLine line).path = some f.path ∧
      (parseLine line).status = some f.status ∧
      (parseLine line).ua = some f.ua ∧
      (parseLine line).tags = [] ∧
      (parseLine line).ts =
        (match parseApacheDate f.date with
         | some t => if t = 0 then none else some t
         | none => none) := by
  simp [parseLine, hm]

def rateF : CLFData :=
  ⟨"1.2.3.4".data, "10/Oct/2000:13:55:36 -0700".data, "GET".data, "/".data,
   200, "x".data⟩

/-- Claim C7 witness: the amended field specification evaluated on a concrete
combined-format line. -/
theorem claim_C7_clf_fields_witness :
    clfMatch rateLine = some rateF ∧
      ((parseLine rateLine).ip = some rateF.addr ∧
        (parseLine rateLine).method = some rateF.method ∧
        (parseLine rateLine).path = some rateF.path ∧
        (parseLine rateLine).status = some rateF.status ∧
        (parseLine rateLine).ua = some rateF.ua ∧
        (parseLine rateLine).tags = [] ∧
        (parseLine rateLine).ts =
          (match parseApacheDate rateF.date with
           | some t => if t = 0 then none else some t
           | none => none)) :=
  ⟨by decide, claim_C7_clf_fields rateLine rateF (by decide)⟩

def fooLine : List Char :=
  "foo - - [10/Oct/2000:13:55:36 -0700] \"GET / HTTP/1.0\" 200 5 \"-\" \"x\"".data

/-- Claim C8 counterexample: a combined-format line whose first field is
`foo` yields `sourceAddress = some "foo"`, which is not a dotted-quad token,
although no IPv4-looking token occurs anywhere in the line — refuting both
halves of the claim. -/
theorem claim_C8_counterexample :
    (parseLine fooLine).ip = some "foo".data ∧
      dottedQuad "foo".data = false ∧
      firstIPMatch fooLine = none := by
  refine ⟨by decide, by decide, by decide⟩

/-- Claim C8 (amended): for lines NOT matching the combined access-log
format, `sourceAddress` is the first `IP_RE` match — hence `none` exactly
when the line has no such match, and any returned token is a non-empty
dotted quad `\d{1,3}(\.\d{1,3}){3}`; for combined-format lines,
`sourceAddress` is the line's first whitespace-delimited field, which need
not be dotted-quad. -/
theorem claim_C8_source_address (line : List Char) :
    (clfMatch line = none →
      ((parseLine line).ip = firstIPMatch line ∧
        ∀ s, firstIPMatch line = some s →
          dottedQuad s = true ∧ s ≠ [])) ∧
    (∀ f, clfMatch line = some f → (parseLine line).ip = some f.addr) := by
  constructor
  · intro hm
    refine ⟨?_, fun s hs =>
      ⟨(firstIPMatch_sound hs).1, (firstIPMatch_sound hs).2.1⟩⟩
    simp only [parseLine, hm]
    split <;> rfl
  · intro f hm
    simp [parseLine, hm]

def fooF : CLFData :=
  ⟨"foo".data, "10/Oct/2000:13:55:36 -0700".data, "GET".data, "/".data, 200,
   "x".data⟩

/-- Claim C8 witness: the amended statement evaluated on a concrete
non-combined line carrying the address 10.0.0.5. -/
theorem claim_C8_source_address_witness :
    clfMatch sshLine = none ∧
      ((parseLine sshLine).ip = firstIPMatch sshLine ∧
        ∀ s, firstIPMatch sshLine = some s →
          dottedQuad s = true ∧ s ≠ []) ∧
      clfMatch fooLine = some fooF ∧
      (parseLine fooLine).ip = some fooF.addr :=
  ⟨by decide, (claim_C8_source_address sshLine).1 (by decide), by decide,
    (claim_C8_source_address fooLine).2 fooF (by decide)⟩

def unk404Line : List Char := "a 404 b".data

/-- Claim C9 counterexample: the single line `a 404 b` has no source address,
yet the emitted "HTTP Error" anomaly's message is `HTTP 404 from unknown` —
the internal `"unknown"` bucket key is surfaced to the caller as the cited
source address, refuting the claim. -/
theorem claim_C9_counterexample :
    (parseLine unk404Line).ip = none ∧
      (analyzeLogs hourNoon unk404Line).anomalies =
        [⟨"HTTP Error".data, "HTTP 404 from unknown".data, some unk404Line⟩] ∧
      lastTok "HTTP 404 from unknown".data = "unknown".data := by
  refine ⟨by decide, by decide, by decide⟩

/-- Claim C9 (amended): the `"unknown"` key is internal to aggregation
keying, but it DOES surface to the caller: every address-less entry whose
status is in the error set produces an "HTTP Error" anomaly whose message
cites `unknown` as the source address. -/
theorem claim_C9_unknown_surfaces (h : Int → Int) (text : List Char)
    (e : LogEntry) (n : Nat) (he : e ∈ (analyzeLogs h text).entries)
    (hip : e.ip = none) (hst : e.status = some n)
    (herr : errStatusB (some n) = true) :
    (⟨"HTTP Error".data,
      "HTTP ".data ++ natChars n ++ " from ".data ++ "unknown".data,
      some e.raw⟩ : Anomaly) ∈ (analyzeLogs h text).anomalies := by
  refine mem_of_httpBlock (mem_httpBlock.mpr ⟨e, he, hst ▸ herr, ?_⟩)
  simp [mkHttp, ipKey, hip, hst]

/-- Claim C9 witness: the amended statement evaluated on the concrete
address-less line `a 404 b`. -/
theorem claim_C9_unknown_surfaces_witness :
    (parseLine unk404Line ∈ (analyzeLogs hourNoon unk404Line).entries ∧
      (parseLine unk404Line).ip = none ∧
      (parseLine unk404Line).status = some 404 ∧
      errStatusB (some 404) = true) ∧
    (⟨"HTTP Error".data,
      "HTTP ".data ++ natChars 404 ++ " from ".data ++ "unknown".data,
      some (parseLine unk404Line).raw⟩ : Anomaly) ∈
        (analyzeLogs hourNoon unk404Line).anomalies :=
  ⟨⟨by decide, by decide, by decide, by decide⟩,
    claim_C9_unknown_surfaces hourNoon unk404Line (parseLine unk404Line) 404
      (by decide) (by decide) (by decide) (by decide)⟩

theorem rateKeyOf_some {e : LogEntry} {k : List Char}
    (h : rateKeyOf e = some k) :
    ∃ t a, e.ts = some t ∧ e.ip = some a ∧
      k = a ++ ':' :: intChars (Int.fdiv t 60000) := by
  unfold rateKeyOf at h
  rcases hts : e.ts with _ | t <;> rcases hip : e.ip with _ | a <;>
    rw [hts, hip] at h
  · exact Option.noConfusion h
  · exact Option.noConfusion h
  · exact Option.noConfusion h
  · injection h with h'
    exact ⟨t, a, rfl, rfl, h'.symm⟩

/-- Pointwise agreement of the key-hit and bucket-hit tests, given that all
addresses in sight are colon-free. -/
theorem rateHit_eq_minuteHit {text ip : List Char} {b : Int}
    (hnc : ∀ e ∈ entriesOf text, ∀ c ∈ e.ip.getD [], ¬ c = ':')
    (hip2 : ∀ c ∈ ip, ¬ c = ':') :
    ∀ e ∈ entriesOf text,
      (rateHit (ip ++ ':' :: intChars b) e = true ↔
        minuteHit ip b e = true) := by
  intro e he
  unfold rateHit minuteHit rateKeyOf
  rcases hts : e.ts with _ | t <;> rcases hip : e.ip with _ | a <;>
    simp only [hts, hip]
  · simp
  · simp
  · simp
  · have hac : ∀ c ∈ a, ¬ c = ':' := by
      have := hnc e he
      rw [hip] at this
      simpa using this
    constructor
    · intro hk
      simp only [decide_eq_true_eq, Option.some.injEq] at hk
      obtain ⟨ha, hb⟩ := rateKey_inj hac hip2 hk
      simp [ha, hb]
    · intro hm
      simp only [Bool.and_eq_true, decide_eq_true_eq] at hm
      obtain ⟨rfl, hb⟩ := hm
      simp [hb]

theorem minuteCount_eq_rateCount {text ip : List Char} {b : Int}
    (hnc : ∀ e ∈ entriesOf text, ∀ c ∈ e.ip.getD [], ¬ c = ':')
    (hip2 : ∀ c ∈ ip, ¬ c = ':') :
    (entriesOf text).countP (rateHit (ip ++ ':' :: intChars b)) =
      minuteCount text ip b := by
  exact List.countP_congr (rateHit_eq_minuteHit hnc hip2)

theorem alook_pm {h : Int → Int} {text : List Char} (k : List Char) :
    alook (aggOf h text).perMinute k =
      mergeCnt none ((entriesOf text).countP (rateHit k)) := by
  have := foldl_perMinute h (entriesOf text) initState k
  exact this

/-- The central correspondence: the per-minute counts grouped under prefix
`ip` by `maxPerIP` are exactly the per-bucket counts of address `ip`. -/
theorem prefHits_iff {h : Int → Int} {text ip : List Char}
    (hnc : ∀ e ∈ entriesOf text, ∀ c ∈ e.ip.getD [], ¬ c = ':')
    (hip2 : ∀ c ∈ ip, ¬ c = ':') (v : Nat) :
    v ∈ prefHits (aggOf h text).perMinute ip ↔
      v ∈ (bucketsOf text ip).map (minuteCount text ip) := by
  constructor
  · intro hv
    rcases mem_prefHits.mp hv with ⟨⟨k, c⟩, hkc, hch, hc⟩
    rcases foldl_pm_keys h (entriesOf text) initState (k, c) hkc with
      hmem | ⟨e, he, hrk⟩
    · simp [initState] at hmem
    · rcases rateKeyOf_some hrk with ⟨t, a, hts, hip, hkey⟩
      have hkey' : k = a ++ ':' :: intChars (Int.fdiv t 60000) := hkey
      have hac : ∀ d ∈ a, ¬ d = ':' := by
        have := hnc e he
        rw [hip] at this
        simpa using this
      have hcha : colonHead k = a := by
        rw [hkey']
        exact colonHead_append a _ hac
      have hch' : colonHead k = ip := hch
      have haip : a = ip := by rw [← hch', hcha]
      have hnd : (((aggOf h text).perMinute).map Prod.fst).Nodup :=
        foldl_pm_nodup h (entriesOf text) initState (by simp [initState])
      have hlook : alook (aggOf h text).perMinute k = some c :=
        mem_alook hnd hkc
      rw [alook_pm] at hlook
      have hceq : c = (entriesOf text).countP (rateHit k) ∧
          (entriesOf text).countP (rateHit k) ≠ 0 := by
        rcases hz : (entriesOf text).countP (rateHit k) with _ | m
        · rw [hz] at hlook
          simp [mergeCnt] at hlook
        · rw [hz] at hlook
          simp only [mergeCnt] at hlook
          injection hlook with hl
          omega
      have hmc : (entriesOf text).countP (rateHit k) =
          minuteCount text ip (Int.fdiv t 60000) := by
        rw [hkey', haip]
        exact minuteCount_eq_rateCount hnc hip2
      have hcv : c = v := hc
      refine List.mem_map.mpr ⟨Int.fdiv t 60000, ?_, by omega⟩
      unfold bucketsOf
      refine List.mem_dedup.mpr (List.mem_filterMap.mpr ⟨e, he, ?_⟩)
      simp [hts, hip, haip]
  · intro hv
    rcases List.mem_map.mp hv with ⟨b, hb, hbv⟩
    unfold bucketsOf at hb
    rcases List.mem_filterMap.mp (List.mem_dedup.mp hb) with ⟨e, he, hfe⟩
    rcases hts : e.ts with _ | t <;> rcases hip : e.ip with _ | a <;>
      simp only [hts, hip] at hfe <;>
      try exact Option.noConfusion hfe
    have hsplit : a = ip ∧ Int.fdiv t 60000 = b := by
      by_cases ha : a = ip
      · rw [if_pos ha] at hfe
        injection hfe with hfe
        exact ⟨ha, hfe⟩
      · rw [if_neg ha] at hfe
        exact Option.noConfusion hfe
    obtain ⟨rfl, hb60⟩ := hsplit
    have hhit : minuteHit a b e = true := by
      unfold minuteHit
      rw [hts, hip]
      simp [hb60]
    have hpos : 0 < minuteCount text a b :=
      List.countP_pos_iff.mpr ⟨e, he, hhit⟩
    have hcnt : (entriesOf text).countP
        (rateHit (a ++ ':' :: intChars b)) = minuteCount text a b :=
      minuteCount_eq_rateCount hnc hip2
    have hlook : alook (aggOf h text).perMinute
        (a ++ ':' :: intChars b) = some (minuteCount text a b) := by
      rw [alook_pm, hcnt]
      rcases hz : minuteCount text a b with _ | m
      · omega
      · simp [mergeCnt]
    refine mem_prefHits.mpr ⟨(a ++ ':' :: intChars b, minuteCount text a b),
      alook_mem hlook, colonHead_append a _ hip2, hbv⟩

theorem maxRate_eq_lmax {h : Int → Int} {text ip : List Char}
    (hnc : ∀ e ∈ entriesOf text, ∀ c ∈ e.ip.getD [], ¬ c = ':')
    (hip2 : ∀ c ∈ ip, ¬ c = ':') :
    lmax (prefHits (aggOf h text).perMinute ip) = maxRate text ip :=
  lmax_congr (fun v => prefHits_iff hnc hip2 v)

theorem firstTok_rateMsg (ip : List Char) (mx : Nat)
    (hip : ∀ c ∈ ip, ¬ c = ' ') :
    firstTok (mkRate ip mx).message = ip := by
  show firstTok (ip ++ " peaked at ".data ++ natChars mx ++ " req/min".data) =
    ip
  have hsep : (" peaked at ".data : List Char) = ' ' :: "peaked at ".data := by
    decide
  rw [hsep]
  simp only [List.append_assoc, List.cons_append]
  exact firstTok_append _ _ hip

/-- Every key of the computed `maxPerIP` map is space-free, provided all
entry addresses are colon-free. -/
theorem maxPerIP_key_no_space {h : Int → Int} {text : List Char}
    {p : List Char × Nat}
    (hnc : ∀ e ∈ entriesOf text, ∀ c ∈ e.ip.getD [], ¬ c = ':')
    (hp : p ∈ mkMaxPerIP (aggOf h text).perMinute) :
    ∀ c ∈ p.1, ¬ c = ' ' := by
  rcases mkMaxPerIP_keys hp with ⟨⟨k, c⟩, hkc, hpk⟩
  rcases foldl_pm_keys h (entriesOf text) initState (k, c) hkc with
    hmem | ⟨e, he, hrk⟩
  · simp [initState] at hmem
  · rcases rateKeyOf_some hrk with ⟨t, a, hts, hip, hkey⟩
    have hkey' : k = a ++ ':' :: intChars (Int.fdiv t 60000) := hkey
    have hac : ∀ d ∈ a, ¬ d = ':' := by
      have := hnc e he
      rw [hip] at this
      simpa using this
    have hcha : colonHead k = a := by
      rw [hkey']
      exact colonHead_append a _ hac
    rcases entriesOf_origin he with ⟨line, rfl⟩
    intro c hc
    rw [hpk, hcha] at hc
    exact not_space_ne_space ((parseLine_ip hip).2 c hc)

/-- Claim C5 (amended): a "Rate Spike" anomaly citing address `ip` and its peak
per-minute value is emitted iff the maximum single-minute bucket count of
`ip` (bucket = timestamp divided by 60000, a maximum, not a sum) strictly
exceeds 120; 121 requests in one bucket fire citing peak 121, 120 do not.
The address-shaped hypotheses hold for every address the parser can extract
when no entry address contains a colon (the colon case is claim C10). -/
theorem claim_C5_rate_spike (h : Int → Int) (text : List Char)
    (ip : List Char)
    (hnc : ∀ e ∈ entriesOf text, ∀ c ∈ e.ip.getD [], ¬ c = ':')
    (hip1 : ∀ c ∈ ip, ¬ c = ' ') (hip2 : ∀ c ∈ ip, ¬ c = ':') :
    ((mkRate ip (maxRate text ip)) ∈ (analyzeLogs h text).anomalies ↔
      120 < maxRate text ip) ∧
    (analyzeLogs hourNoon (rateText 121)).anomalies =
      [⟨"Rate Spike".data, "1.2.3.4 peaked at 121 req/min".data, none⟩] ∧
    (analyzeLogs hourNoon (rateText 120)).anomalies = [] := by
  refine ⟨⟨?_, ?_⟩, ?_, ?_⟩
  · intro hmem
    rcases anoms_cases hmem with hb | hb | hb | hb | hb | hb
    · have hbf : ("Rate Spike".data : List Char) = "HTTP Error".data :=
        httpBlock_type hb
      exact absurd hbf (by decide)
    · have hbf : ("Rate Spike".data : List Char) = "Brute Force".data :=
        bruteBlock_type hb
      exact absurd hbf (by decide)
    · have hbf : ("Rate Spike".data : List Char) = "Error Spike".data :=
        errSpikeBlock_type hb
      exact absurd hbf (by decide)
    · have hbf : ("Rate Spike".data : List Char) = "Suspicious UA".data :=
        uaBlock_type hb
      exact absurd hbf (by decide)
    · rcases mem_rateBlock.mp hb with ⟨⟨p, mx⟩, hpm, h120, heq⟩
      have hpns : ∀ c ∈ p, ¬ c = ' ' := maxPerIP_key_no_space hnc hpm
      injection heq with _ hmsg _
      have hipeq : ip = p := by
        have e1 := firstTok_rateMsg ip (maxRate text ip) hip1
        have e2 := firstTok_rateMsg p mx hpns
        rw [← e1, ← e2]
        show firstTok (mkRate ip (maxRate text ip)).message =
          firstTok (mkRate p mx).message
        rw [show (mkRate ip (maxRate text ip)).message =
            ip ++ " peaked at ".data ++ natChars (maxRate text ip) ++
              " req/min".data from rfl, hmsg]
        rfl
      subst hipeq
      have hnd := mkMaxPerIP_nodup (aggOf h text).perMinute
      have hlook : alook (mkMaxPerIP (aggOf h text).perMinute) ip = some mx :=
        mem_alook hnd hpm
      have h2 := alook_mkMaxPerIP (aggOf h text).perMinute ip
      rw [hlook] at h2
      rcases hph : prefHits (aggOf h text).perMinute ip with _ | ⟨c, cs⟩
      · rw [hph, jfold_none] at h2
        exact Option.noConfusion h2
      · rw [hph, jfold_none] at h2
        injection h2 with h2
        have hfold : cs.foldl max c = lmax (c :: cs) := by
          rw [foldl_max_eq, lmax_cons]
        have hmr : lmax (c :: cs) = maxRate text ip := by
          rw [← hph]
          exact maxRate_eq_lmax hnc hip2
        have h120' : 120 < mx := h120
        omega
    · have hbf : ("Rate Spike".data : List Char) = "Off-hours Activity".data :=
        nightBlock_type hb
      exact absurd hbf (by decide)
  · intro h120
    have hlm : lmax (prefHits (aggOf h text).perMinute ip) = maxRate text ip :=
      maxRate_eq_lmax hnc hip2
    rcases hph : prefHits (aggOf h text).perMinute ip with _ | ⟨c, cs⟩
    · rw [hph] at hlm
      have : lmax ([] : List Nat) = 0 := rfl
      omega
    · have h2 := alook_mkMaxPerIP (aggOf h text).perMinute ip
      rw [hph, jfold_none] at h2
      have h2' : alook (mkMaxPerIP (aggOf h text).perMinute) ip =
          some (cs.foldl max c) := h2
      have hfold : cs.foldl max c = maxRate text ip := by
        rw [foldl_max_eq, ← lmax_cons, ← hph]
        exact hlm
      rw [hfold] at h2'
      exact mem_of_rateBlock (mem_rateBlock.mpr
        ⟨(ip, maxRate text ip), alook_mem h2', h120, rfl⟩)
  · have h121 := analyze_rateText 120
    rw [show (120 : Nat) + 1 = 121 from rfl] at h121
    rw [h121, if_pos (by omega : (120 : Nat) < 121)]
    decide
  · have h120 := analyze_rateText 119
    rw [show (119 : Nat) + 1 = 120 from rfl] at h120
    rw [h120, if_neg (by omega : ¬ (120 : Nat) < 120)]

/-- Claim C5 witness: the hypotheses and the rule discharged on a concrete
one-line input from address 1.2.3.4. -/
theorem claim_C5_rate_spike_witness :
    ((∀ e ∈ entriesOf (rateText 1), ∀ c ∈ e.ip.getD [], ¬ c = ':') ∧
      (∀ c ∈ ("1.2.3.4".data : List Char), ¬ c = ' ') ∧
      (∀ c ∈ ("1.2.3.4".data : List Char), ¬ c = ':')) ∧
    (((mkRate "1.2.3.4".data (maxRate (rateText 1) "1.2.3.4".data)) ∈
        (analyzeLogs hourNoon (rateText 1)).anomalies ↔
      120 < maxRate (rateText 1) "1.2.3.4".data) ∧
    (analyzeLogs hourNoon (rateText 121)).anomalies =
      [⟨"Rate Spike".data, "1.2.3.4 peaked at 121 req/min".data, none⟩] ∧
    (analyzeLogs hourNoon (rateText 120)).anomalies = []) :=
  ⟨⟨by decide, by decide, by decide⟩,
    claim_C5_rate_spike hourNoon (rateText 1) "1.2.3.4".data (by decide)
      (by decide) (by decide)⟩

/-- Claim C4 witness: the brute-force rule discharged on the concrete 7-line
input from address 10.0.0.5. -/
theorem claim_C4_brute_force_witness :
    (∀ c ∈ ("10.0.0.5".data : List Char), ¬ c = ' ') ∧
    (((mkBrute "10.0.0.5".data (failedCount brute7Text "10.0.0.5".data)) ∈
        (analyzeLogs hourNoon brute7Text).anomalies ↔
      6 ≤ failedCount brute7Text "10.0.0.5".data) ∧
    (analyzeLogs hourNoon brute7Text).anomalies =
      [⟨"Brute Force".data, "7 failed logins from 10.0.0.5".data, none⟩]) :=
  ⟨by decide,
    claim_C4_brute_force hourNoon brute7Text "10.0.0.5".data (by decide)⟩

/-- Claim C10: the per-minute composite key `address ++ ":" ++ bucket` is
split back at the first colon, so a colon-free address is recovered in full;
but on the 121-line input whose combined-format address token is
`1.2.3.4:80`, the emitted Rate Spike anomaly cites only `1.2.3.4` — the
prefix before the first colon — which differs from every entry's
`sourceAddress`. -/
theorem claim_C10_composite_key :
    (∀ (ip : List Char) (b : Int), (∀ c ∈ ip, ¬ c = ':') →
      colonHead (ip ++ ':' :: intChars b) = ip) ∧
    (∀ e ∈ entriesOf (colonText 121), e.ip = some "1.2.3.4:80".data) ∧
    (analyzeLogs hourNoon (colonText 121)).anomalies =
      [⟨"Rate Spike".data, "1.2.3.4 peaked at 121 req/min".data, none⟩] ∧
    ("1.2.3.4".data : List Char) ≠ "1.2.3.4:80".data := by
  refine ⟨fun ip b hip => colonHead_append ip _ hip, ?_, ?_, by decide⟩
  · intro e he
    have hrep : entriesOf (colonText 121) = List.replicate 121 colonE := by
      rw [show colonText 121 = joinNL (List.replicate 121 colonLine) from rfl,
        entriesOf_replicate (by decide) (by decide) 121 (by omega),
        parse_colonLine]
    rw [hrep] at he
    rw [List.eq_of_mem_replicate he]
    rfl
  · have h121 := analyze_colonText 120
    rw [show (120 : Nat) + 1 = 121 from rfl] at h121
    rw [h121, if_pos (by omega : (120 : Nat) < 121)]
    decide

/-- Claim C10 witness: key recovery and entry shape discharged on concrete
data. -/
theorem claim_C10_composite_key_witness :
    ((∀ c ∈ ("10.0.0.5".data : List Char), ¬ c = ':') ∧
      colonHead ("10.0.0.5".data ++ ':' :: intChars 7) = "10.0.0.5".data) ∧
    ((parseLine colonLine ∈ entriesOf (colonText 121)) ∧
      (parseLine colonLine).ip = some "1.2.3.4:80".data) := by
  have hmem : parseLine colonLine ∈ entriesOf (colonText 121) := by
    rw [show colonText 121 = joinNL (List.replicate 121 colonLine) from rfl,
      entriesOf_replicate (by decide) (by decide) 121 (by omega)]
    exact List.mem_replicate.mpr ⟨by omega, rfl⟩
  exact ⟨⟨by decide, claim_C10_composite_key.1 "10.0.0.5".data 7 (by decide)⟩,
    hmem, claim_C10_composite_key.2.1 (parseLine colonLine) hmem⟩

theorem filterMap_replicate {α β : Type} (f : α → Option β) (n : Nat)
    (a : α) :
    (List.replicate n a).filterMap f =
      match f a with
      | some b => List.replicate n b
      | none => [] := by
  induction n with
  | zero => cases f a <;> simp
  | succ n ih =>
    rw [List.replicate_succ, List.filterMap_cons]
    cases hf : f a
    · rw [hf] at ih
      simpa [hf] using ih
    · rw [hf] at ih
      simp [hf, ih, List.replicate_succ]

theorem dedup_replicate {α : Type} [DecidableEq α] (n : Nat) (a : α)
    (hn : n ≠ 0) : (List.replicate n a).dedup = [a] := by
  induction n with
  | zero => exact absurd rfl hn
  | succ n ih =>
    rcases Nat.eq_zero_or_pos n with rfl | hpos
    · simp
    · rw [List.replicate_succ, List.dedup_cons_of_mem
        (List.mem_replicate.mpr ⟨by omega, rfl⟩)]
      exact ih (by omega)

theorem countP_replicate {α : Type} (p : α → Bool) (n : Nat) (a : α) :
    (List.replicate n a).countP p = if p a then n else 0 := by
  induction n with
  | zero => cases hp : p a <;> simp [hp]
  | succ n ih =>
    rw [List.replicate_succ, List.countP_cons]
    cases hp : p a <;> simp [hp] at ih ⊢ <;> omega

/-- Claim C5 counterexample: on 121 identical combined-format lines whose
address token is `1.2.3.4:80`, that address's maximum single-minute bucket
count is 121 > 120, yet no "Rate Spike" anomaly citing `1.2.3.4:80` is
emitted — the only anomaly cites the colon-split prefix `1.2.3.4` — so the
claim's "for every address" fails on addresses containing `:`. -/
theorem claim_C5_counterexample :
    maxRate (colonText 121) "1.2.3.4:80".data = 121 ∧
      (analyzeLogs hourNoon (colonText 121)).anomalies =
        [⟨"Rate Spike".data, "1.2.3.4 peaked at 121 req/min".data, none⟩] ∧
      mkRate "1.2.3.4:80".data 121 ∉
        (analyzeLogs hourNoon (colonText 121)).anomalies := by
  have hrep : entriesOf (colonText 121) = List.replicate 121 colonE := by
    rw [show colonText 121 = joinNL (List.replicate 121 colonLine) from rfl,
      entriesOf_replicate (by decide) (by decide) 121 (by omega),
      parse_colonLine]
  have hanom : (analyzeLogs hourNoon (colonText 121)).anomalies =
      [⟨"Rate Spike".data, "1.2.3.4 peaked at 121 req/min".data, none⟩] := by
    have h121 := analyze_colonText 120
    rw [show (120 : Nat) + 1 = 121 from rfl] at h121
    rw [h121, if_pos (by omega : (120 : Nat) < 121)]
    decide
  have hf : (match colonE.ts, colonE.ip with
      | some t, some a =>
        if a = "1.2.3.4:80".data then some (Int.fdiv t 60000) else none
      | _, _ => none) = some (16186855 : Int) := by decide
  have hbuck : bucketsOf (colonText 121) "1.2.3.4:80".data =
      [(16186855 : Int)] := by
    unfold bucketsOf
    rw [hrep, filterMap_replicate, hf]
    exact dedup_replicate 121 (16186855 : Int) (by omega)
  have hcnt : minuteCount (colonText 121) "1.2.3.4:80".data 16186855 =
      121 := by
    unfold minuteCount
    rw [hrep, countP_replicate]
    decide
  refine ⟨?_, hanom, ?_⟩
  · unfold maxRate
    rw [hbuck]
    simp only [List.map_cons, List.map_nil]
    rw [hcnt]
    decide
  · rw [hanom]
    decide

end LogChecker
